import Mathlib

/-!
Verification model of `src/quiver.h` (the Quiver ECS runtime).

Modelling conventions, stated once:

* `std::bitset<64>` (`ComponentSignature`) is embedded as the finite set of its
  set bit positions (`Finset ℕ`).  All bits are `< 64` by construction, because
  the only place a fresh bit is chosen is `World::registerComponent`, which in
  the source calls `signature.set(componentId)`; `std::bitset::set` throws for
  positions `≥ 64`, which the model reflects by an `outOfRange` error guard.
  `set`/`reset`/`test` become `insert`/`erase`/`∈`, `operator|` becomes `∪`,
  and `(entity & system) == system` becomes `entity ∩ system = system`.

* `std::map` is embedded as an association list together with the operations
  the source uses: `emplace` (insert only if the key is absent), `at` (lookup,
  throwing when absent), assignment through `at` (update of a present key), and
  `erase`.  `std::set<EntityHandle>` is embedded as `Finset ℕ`; iterating a
  `std::set<EntityHandle>` yields its elements in increasing order, embedded as
  `Finset.sort (· ≤ ·)`.

* Every `.at` call that can throw `std::out_of_range` is embedded as a fallible
  step.  The error value names the precondition that the failing lookup
  detects, following the spec's taxonomy: a miss on `entitySignatures` or
  `entitySystemDescriptors` is `unknownEntity`; a miss on a component store's
  `handleMap` is `missingComponent`; misses that cannot occur on consistent
  states (vector indexing, `reverseMap`, `systemDescriptors`, `destructors`)
  are `outOfRange`.  A failed `assert` (compiled under `QV_DEBUG`) aborts the
  program; it is embedded as the distinct error `assertFailed`.

* C++ statics persist across a thrown exception, so mutating operations are
  embedded as `World → StepResult World`, where the error case carries the
  state at the moment of the throw (the mutations already performed persist).

* `World::addComponent<T>` only ever stores a default-constructed component
  (`Registrar<T>::createComponent` passes `Component{}`), so the world-level
  store model instantiates the component type with `Unit`.  Component values
  are exercised at the `Registrar` level, where `addComponent` takes a value.
-/

/-- Error taxonomy for fallible steps (see the conventions above). -/
inductive QvError where
  | unknownEntity
  | missingComponent
  | outOfRange
  | assertFailed
  deriving DecidableEq, Repr

/-- Result of one mutating operation.  `err e s` records the state `s` at the
moment the exception `e` was thrown (C++ statics persist across a throw). -/
inductive StepResult (σ : Type) where
  | ok (s : σ)
  | err (e : QvError) (s : σ)
  deriving DecidableEq, Repr

namespace StepResult

/-- Sequencing of fallible steps: a thrown exception propagates, keeping the
state already mutated. -/
def andThen {σ : Type} (r : StepResult σ) (f : σ → StepResult σ) : StepResult σ :=
  match r with
  | .ok s => f s
  | .err e s => .err e s

/-- The state a step ends in, whether or not it threw. -/
def state {σ : Type} : StepResult σ → σ
  | .ok s => s
  | .err _ s => s

/-- Whether the step completed without throwing. -/
def isOk {σ : Type} : StepResult σ → Bool
  | .ok _ => true
  | .err _ _ => false

end StepResult

/-! ### Association-list model of `std::map` -/

/-- `map.find(k)` / `map.contains(k)` as an `Option`-valued lookup. -/
def mapFind? {α β : Type} [DecidableEq α] (l : List (α × β)) (k : α) : Option β :=
  match l with
  | [] => none
  | p :: rest => if p.1 = k then some p.2 else mapFind? rest k

/-- `map.emplace(k, v)`: inserts only when the key is absent (an `emplace` with
a present key is a silent no-op). -/
def mapEmplace {α β : Type} [DecidableEq α] (l : List (α × β)) (k : α) (v : β) :
    List (α × β) :=
  if (mapFind? l k).isSome then l else l ++ [(k, v)]

/-- `map.at(k) = v`: assignment through a (present) key. -/
def mapAssign {α β : Type} [DecidableEq α] (l : List (α × β)) (k : α) (v : β) :
    List (α × β) :=
  l.map (fun p => if p.1 = k then (k, v) else p)

/-- `map.erase(k)`. -/
def mapErase {α β : Type} [DecidableEq α] (l : List (α × β)) (k : α) :
    List (α × β) :=
  l.filter (fun p => p.1 ≠ k)

/-- `set.emplace(x)` on a `std::set` modeled as a duplicate-free list:
inserts only when the element is absent. -/
def listEmplace {α : Type} [DecidableEq α] (l : List α) (x : α) : List α :=
  if x ∈ l then l else l ++ [x]

/-- The keys of an association list are pairwise distinct.  Every map in the
model is only ever built through `mapEmplace`/`mapAssign`/`mapErase`, which
preserve this. -/
def NodupKeys {α β : Type} (l : List (α × β)) : Prop :=
  (l.map Prod.fst).Nodup

/-! ### `Registrar<Component>` — the per-type dense component store -/

/-- The static storage of one `Registrar<Component>` instantiation: the dense
array and the two indirection maps (`signature`/`signatureBit` are owned by the
`World` model, which indexes registrars by bit). -/
structure Registrar (C : Type) where
  components : List C
  handleMap : List (ℕ × ℕ)
  reverseMap : List (ℕ × ℕ)
  deriving DecidableEq, Repr

namespace Registrar

/-- The empty store (state of the statics at program start). -/
def empty (C : Type) : Registrar C := ⟨[], [], []⟩

/-- `Registrar::addComponent(component, handle)`:
appends to the dense array and `emplace`s both indirection entries.
The source performs no duplicate check here. -/
def addComponent {C : Type} (s : Registrar C) (c : C) (h : ℕ) : Registrar C :=
  let comps := s.components ++ [c]
  { components := comps
    handleMap := mapEmplace s.handleMap h (comps.length - 1)
    reverseMap := mapEmplace s.reverseMap (comps.length - 1) h }

/-- `Registrar::createComponent(handle)`: attach a default-constructed value. -/
def createComponent {C : Type} [Inhabited C] (s : Registrar C) (h : ℕ) :
    Registrar C :=
  s.addComponent default h

/-- `std::swap(components.back(), components.at(index))` on the dense array. -/
def listSwap {C : Type} (l : List C) (i j : ℕ) : List C :=
  match l.get? i, l.get? j with
  | some a, some b => (l.set i b).set j a
  | _, _ => l

/-- `Registrar::removeComponent(handle)`: swap-and-pop removal.  Statements in
source order: `handleMap.at(handle)`; swap target slot with the last slot;
`reverseMap.at(size-1)`; update both indirection entries of the moved entity;
`pop_back`; erase the detached entity's two indirection entries. -/
def removeComponent {C : Type} (s : Registrar C) (h : ℕ) :
    Except QvError (Registrar C) :=
  match mapFind? s.handleMap h with
  | none => Except.error QvError.missingComponent
  | some index =>
    if index < s.components.length then
      let comps := listSwap s.components index (s.components.length - 1)
      match mapFind? s.reverseMap (comps.length - 1) with
      | none => Except.error QvError.outOfRange
      | some otherHandle =>
        if (mapFind? s.handleMap otherHandle).isSome then
          if (mapFind? s.reverseMap index).isSome then
            let hm := mapAssign s.handleMap otherHandle index
            let rm := mapAssign s.reverseMap index otherHandle
            let comps2 := comps.dropLast
            Except.ok { components := comps2
                        handleMap := mapErase hm h
                        reverseMap := mapErase rm comps2.length }
          else Except.error QvError.outOfRange
        else Except.error QvError.missingComponent
    else Except.error QvError.outOfRange

/-- `Registrar::getComponent(handle)`: `components.at(handleMap.at(handle))`.
A pure read; the `handleMap.at` miss is the `MissingComponent` failure. -/
def getComponent {C : Type} (s : Registrar C) (h : ℕ) : Except QvError C :=
  match mapFind? s.handleMap h with
  | none => Except.error QvError.missingComponent
  | some i =>
    match s.components.get? i with
    | none => Except.error QvError.outOfRange
    | some c => Except.ok c

/-- The store invariant: the two indirection maps are inverse bijections, the
dense array is exactly as long as the handle map, and exactly the slots below
the array length are bound in the reverse map. -/
def Inv {C : Type} (s : Registrar C) : Prop :=
  NodupKeys s.handleMap ∧ NodupKeys s.reverseMap ∧
  (∀ h i, mapFind? s.handleMap h = some i ↔ mapFind? s.reverseMap i = some h) ∧
  s.components.length = s.handleMap.length ∧
  (∀ i, (mapFind? s.reverseMap i).isSome ↔ i < s.components.length)

/-- The stores reachable from the empty store by sequences of valid
attach/detach operations: each attach on a handle not currently held, each
detach on a handle currently held. -/
inductive Reach {C : Type} : Registrar C → Prop
  | empty : Reach (Registrar.empty C)
  | attach {s : Registrar C} {c : C} {h : ℕ} :
      Reach s → mapFind? s.handleMap h = none → Reach (s.addComponent c h)
  | detach {s s' : Registrar C} {h : ℕ} :
      Reach s → (mapFind? s.handleMap h).isSome →
      s.removeComponent h = Except.ok s' → Reach s'

end Registrar

/-! ### World — facade, signature arithmetic, system membership caches -/

/-- `componentBitsetSize` (the build-time signature width, default 64). -/
def componentBitsetSize : ℕ := 64

/-- The statics of one `System<T1..Tn>` instantiation: the cached entity set
and the materialized component list, together with the system's required
signature (in the source this value is fixed by the template arguments —
`World::generateSignature<Components...>()` — and copied into each of the
system's descriptors; the model records it here once and the descriptor
copies are asserted equal to it by the invariant `WInv.descIdx`).  The tuples
of `componentList` hold one reference per required component plus the entity
handle; references are not values, so the model records the entity handles in
iteration order (the reference lookups are discussed at `World.regenerate`). -/
structure SystemState where
  signature : Finset ℕ
  entities : Finset ℕ
  componentList : List ℕ
  deriving DecidableEq

/-- One `SystemDescriptor`: the copied required signature, and the identity of
the `System` instantiation whose statics the `set` pointer and the
`regenerateComponentList` closure refer to (index into `World.systems`). -/
structure SystemDescriptor where
  signature : Finset ℕ
  sysIdx : ℕ
  deriving DecidableEq

/-- The world's static state.  `stores.get? b` is the `Registrar` statics of
the component type registered with `signatureBit = b`; the same list models
the `destructors` vector, whose entry `b` is that registrar's
`removeComponent` (`registerComponent` pushes them in lockstep, so both are
indexed by bit and have length `componentId`).  A `SystemDescriptor*` held in
`entitySystemDescriptors` is identified by the pair
`(bit, sysIdx)`: the element for system `sysIdx` inside
`systemDescriptors[bit]` (`registerSystem` appends at most one descriptor per
system per bit, so the pair determines the descriptor). -/
structure World where
  componentId : ℕ
  entityId : ℕ
  systemDescriptors : List (List SystemDescriptor)
  entitySignatures : List (ℕ × Finset ℕ)
  entitySystemDescriptors : List (ℕ × List (ℕ × ℕ))
  stores : List (Registrar Unit)
  systems : List SystemState
  deriving DecidableEq

namespace World

/-- `World::compareSignatures(entity, system)`:
`(entity & system) == system`. -/
def compareSignatures (entity system : Finset ℕ) : Prop :=
  entity ∩ system = system

instance (entity system : Finset ℕ) : Decidable (compareSignatures entity system) := by
  unfold compareSignatures; infer_instance

/-- The program-start state: no types, no systems, no entities; entity ids
start at 1 (`// Uses ID 0 for a null handle`). -/
def init : World :=
  { componentId := 0
    entityId := 1
    systemDescriptors := []
    entitySignatures := []
    entitySystemDescriptors := []
    stores := []
    systems := [] }

/-- One step of `World::registerComponent` for one fresh type:
`Registrar<C>::signature.set(componentId)` (throwing for bit positions `≥ 64`,
modeled by the guard), `signatureBit := componentId`,
`destructors.push_back(&Registrar<C>::removeComponent)` (the fresh type's
still-empty statics join `stores`), `systemDescriptors.emplace_back()`,
`componentId++`.  The variadic source recurses over its type pack; callers of
this model fold it instead. -/
def registerComponent (w : World) : StepResult World :=
  if w.componentId < componentBitsetSize then
    .ok { w with
          stores := w.stores ++ [Registrar.empty Unit]
          systemDescriptors := w.systemDescriptors ++ [[]]
          componentId := w.componentId + 1 }
  else .err .outOfRange w

/-- `World::createEntity`: `emplace` a zero signature and an empty
back-reference set under the next id, then post-increment `entityId`. -/
def createEntity (w : World) : ℕ × World :=
  (w.entityId,
   { w with
     entitySignatures := mapEmplace w.entitySignatures w.entityId ∅
     entitySystemDescriptors := mapEmplace w.entitySystemDescriptors w.entityId []
     entityId := w.entityId + 1 })

/-- `descriptor.regenerateComponentList()`: clears and rebuilds the cached
list from the system's current entity set, in `std::set` iteration order
(increasing handles).  The source builds a tuple per member by calling
`Registrar<C>::getComponent` for each required component; those lookups
return references (not modeled as values) and succeed on every state this
development runs the rebuild on, because each member's signature is a
superset of the system's signature and each signature bit is backed by a
`handleMap` entry (clauses `membership` and `storeCoherence` of `WInv`
below). -/
def regenerate (w : World) (i : ℕ) : World :=
  match w.systems.get? i with
  | none => w
  | some sys =>
    let sys1 := { sys with componentList := sys.entities.sort (· ≤ ·) }
    { w with systems := w.systems.set i sys1 }

/-- The filtered `for_each` of `World::addComponent`: for every descriptor
registered at the changed bit whose signature the entity's (already updated)
signature covers, insert the entity into the descriptor's set, rebuild the
cache, and `emplace` the descriptor's address into the entity's
back-reference set. -/
def addLoop (b h : ℕ) : List SystemDescriptor → World → StepResult World
  | [], w => .ok w
  | d :: rest, w =>
    match mapFind? w.entitySignatures h with
    | none => .err .unknownEntity w
    | some esig =>
      if compareSignatures esig d.signature then
        match w.systems.get? d.sysIdx with
        | none => .err .outOfRange w
        | some sys =>
          let sys1 := { sys with entities := insert h sys.entities }
          let w1 := { w with systems := w.systems.set d.sysIdx sys1 }
          let w2 := w1.regenerate d.sysIdx
          match mapFind? w2.entitySystemDescriptors h with
          | none => .err .unknownEntity w2
          | some brs =>
            let brs1 := listEmplace brs (b, d.sysIdx)
            addLoop b h rest { w2 with entitySystemDescriptors := mapAssign w2.entitySystemDescriptors h brs1 }
      else addLoop b h rest w

/-- `World::addComponent<Component>(handle)` where `b` is
`Registrar<Component>::signatureBit` (the model covers registered component
types; an unregistered type's uninitialized `signatureBit` is a usage error
the spec excludes).  Statements in source order: set the signature bit
(`entitySignatures.at` may throw), `Registrar<Component>::createComponent`
(attach a default-constructed value), then the filtered `for_each` over
`systemDescriptors.at(signatureBit)`. -/
def addComponent (w : World) (b h : ℕ) : StepResult World :=
  match mapFind? w.entitySignatures h with
  | none => .err .unknownEntity w
  | some sig =>
    let w1 := { w with entitySignatures := mapAssign w.entitySignatures h (insert b sig) }
    match w1.stores.get? b with
    | none => .err .outOfRange w1
    | some st =>
      let w2 := { w1 with stores := w1.stores.set b (st.createComponent h) }
      match w2.systemDescriptors.get? b with
      | none => .err .outOfRange w2
      | some descs => addLoop b h descs w2

/-- The filtered `for_each` of `World::removeComponent`: the filter reads the
entity's *current* signature (the bit is reset only after the loop); matching
descriptors have the entity erased from their set, the cache rebuilt, and the
descriptor's address erased from the entity's back-reference set. -/
def removeLoop (b h : ℕ) : List SystemDescriptor → World → StepResult World
  | [], w => .ok w
  | d :: rest, w =>
    match mapFind? w.entitySignatures h with
    | none => .err .unknownEntity w
    | some esig =>
      if compareSignatures esig d.signature then
        match w.systems.get? d.sysIdx with
        | none => .err .outOfRange w
        | some sys =>
          let sys1 := { sys with entities := sys.entities.erase h }
          let w1 := { w with systems := w.systems.set d.sysIdx sys1 }
          let w2 := w1.regenerate d.sysIdx
          match mapFind? w2.entitySystemDescriptors h with
          | none => .err .unknownEntity w2
          | some brs =>
            let brs1 := brs.filter (· ≠ (b, d.sysIdx))
            removeLoop b h rest { w2 with entitySystemDescriptors := mapAssign w2.entitySystemDescriptors h brs1 }
      else removeLoop b h rest w

/-- `World::removeComponent<Component>(handle)` where `b` is
`Registrar<Component>::signatureBit`.  Statements in source order: the
filtered `for_each` over `systemDescriptors.at(signatureBit)`, then
`entitySignatures.at(handle).reset(signatureBit)`, then
`Registrar<Component>::removeComponent(handle)` (whose `handleMap.at` miss
throws after the reset; the reset of an already clear bit rewrites the same
signature, so the thrown state equals the entry state). -/
def removeComponent (w : World) (b h : ℕ) : StepResult World :=
  match w.systemDescriptors.get? b with
  | none => .err .outOfRange w
  | some descs =>
    (removeLoop b h descs w).andThen fun w1 =>
      match mapFind? w1.entitySignatures h with
      | none => .err .unknownEntity w1
      | some sig =>
        let w2 := { w1 with entitySignatures := mapAssign w1.entitySignatures h (sig.erase b) }
        match w2.stores.get? b with
        | none => .err .outOfRange w2
        | some st =>
          match st.removeComponent h with
          | .ok st' => .ok { w2 with stores := w2.stores.set b st' }
          | .error e => .err e w2

/-- The first loop of `World::destroyEntity`: for every bit of the entity's
signature (read once through a reference that no destructor mutates), invoke
`destructors.at(bit)(handle)`, i.e. the registered
`Registrar<C>::removeComponent`.  Note that this is the *registrar's* detach,
not `World::removeComponent`: no signature bit is cleared and no cache is
touched here. -/
def destroyLoop (h : ℕ) (sig : Finset ℕ) : List ℕ → World → StepResult World
  | [], w => .ok w
  | bit :: rest, w =>
    if bit ∈ sig then
      match w.stores.get? bit with
      | none => .err .outOfRange w
      | some st =>
        match st.removeComponent h with
        | .ok st' => destroyLoop h sig rest { w with stores := w.stores.set bit st' }
        | .error e => .err e w
    else destroyLoop h sig rest w

/-- The second loop of `World::destroyEntity`: for every descriptor in the
entity's back-reference set, erase the entity from the descriptor's set and
rebuild that cache.  `std::set<SystemDescriptor*>` iterates in pointer order,
which is not derivable from the source; the model iterates in the recorded
(insertion) order — the loop body only erases from and rebuilds per-system
state, so the resulting world does not depend on the order. -/
def evictLoop (h : ℕ) : List (ℕ × ℕ) → World → StepResult World
  | [], w => .ok w
  | d :: rest, w =>
    match w.systems.get? d.2 with
    | none => .err .outOfRange w
    | some sys =>
      let sys1 := { sys with entities := sys.entities.erase h }
      let w1 := { w with systems := w.systems.set d.2 sys1 }
      evictLoop h rest (w1.regenerate d.2)

/-- `World::destroyEntity(handle)`: look up the signature (throwing
`UnknownEntity` when absent), run the per-bit destructor loop, evict the
entity from every back-referenced descriptor, then erase both directory
entries. -/
def destroyEntity (w : World) (h : ℕ) : StepResult World :=
  match mapFind? w.entitySignatures h with
  | none => .err .unknownEntity w
  | some sig =>
    (destroyLoop h sig (List.range componentBitsetSize) w).andThen fun w1 =>
      match mapFind? w1.entitySystemDescriptors h with
      | none => .err .unknownEntity w1
      | some brs =>
        (evictLoop h brs w1).andThen fun w2 =>
          .ok { w2 with
                entitySystemDescriptors := mapErase w2.entitySystemDescriptors h
                entitySignatures := mapErase w2.entitySignatures h }

/-- `World::generateSignature<T1..Tn>`: the `operator|` fold of each type's
single-bit signature (the fold direction is immaterial for `∪`). -/
def generateSignature (bits : List ℕ) : Finset ℕ :=
  bits.foldl (fun acc b => acc ∪ {b}) ∅

/-- The registration loop of `System<T1..Tn>::registerSystem`: for every bit
of the required signature, `systemDescriptors.at(bit).emplace_back(signature,
&entities, regenerateComponentList)`. -/
def regLoop (sig : Finset ℕ) (sysIdx : ℕ) : List ℕ → World → StepResult World
  | [], w => .ok w
  | bit :: rest, w =>
    if bit ∈ sig then
      match w.systemDescriptors.get? bit with
      | none => .err .outOfRange w
      | some descs =>
        regLoop sig sysIdx rest
          { w with systemDescriptors := w.systemDescriptors.set bit (descs ++ [⟨sig, sysIdx⟩]) }
    else regLoop sig sysIdx rest w

/-- `System<T1..Tn>::registerSystem` for the system whose required component
bits are `bits`: compute the signature once, then register one descriptor per
set bit, each pointing at this instantiation's (initially empty) statics.
The `registered` flag makes a second call a no-op; the setup relation below
registers each system exactly once. -/
def registerSystem (w : World) (bits : List ℕ) : StepResult World :=
  let sig := generateSignature bits
  let sysIdx := w.systems.length
  regLoop sig sysIdx (List.range componentBitsetSize)
    { w with systems := w.systems ++ [⟨sig, ∅, []⟩] }

/-- The `getComponent` read for the component type of bit `b`
(`Registrar<Component>::getComponent(handle)`, also what
`Entity::getComponent` calls). -/
def getComponent (w : World) (b h : ℕ) : Except QvError Unit :=
  match w.stores.get? b with
  | none => Except.error QvError.outOfRange
  | some st => st.getComponent h

end World

/-! ### The `Entity` wrapper -/

namespace EntityW

/-- `Entity::addComponent<Component>()` on the wrapper holding handle `h`,
with `debug` reflecting `QV_DEBUG`: under `QV_DEBUG` the method first runs
`assert(!Registrar<Component>::handleMap.contains(handle))`, whose failure
aborts before `World::addComponent` runs (embedded as the `assertFailed`
error with the state untouched); without `QV_DEBUG` there is no check. -/
def addComponent (w : World) (debug : Bool) (b h : ℕ) : StepResult World :=
  if debug &&
      (mapFind? (match w.stores.get? b with
                  | some st => st.handleMap
                  | none => []) h).isSome
  then .err .assertFailed w
  else w.addComponent b h

/-- The two statements of `Entity::operator=(Entity&&)` acting on a store of
wrapper objects (`cells.getD k 0` is wrapper `k`'s `handle` field; aliasing —
self-move-assignment — is the case `i = j`):
`handle = other.handle; other.handle = 0;`.
The operator touches no `World` state and in particular never calls
`World::destroyEntity`. -/
def moveAssignCells (cells : List ℕ) (i j : ℕ) : List ℕ :=
  let cells1 := cells.set i (cells.getD j 0)
  cells1.set j 0

/-- `Entity::operator=(Entity&&)` on the combined program state: the world
component is untouched (the source body is exactly the two handle
assignments). -/
def moveAssign (st : World × List ℕ) (i j : ℕ) : World × List ℕ :=
  (st.1, moveAssignCells st.2 i j)

end EntityW

/-! ### Mutations and reachability -/

/-- The four entity-state mutations of the claim set. -/
inductive WOp where
  | create
  | addC (b h : ℕ)
  | removeC (b h : ℕ)
  | destroy (h : ℕ)

/-- Run one mutation. -/
def WOp.run (w : World) : WOp → StepResult World
  | .create => .ok (w.createEntity).2
  | .addC b h => w.addComponent b h
  | .removeC b h => w.removeComponent b h
  | .destroy h => w.destroyEntity h

/-- The spec's preconditions for each mutation (§4.4, §7): the handle is live,
an added component is not already present (duplicate add is a programming
error), a removed component is present, and the component type is registered. -/
def WOp.Valid (w : World) : WOp → Prop
  | .create => True
  | .addC b h => b < w.componentId ∧ ∃ sig, mapFind? w.entitySignatures h = some sig ∧ b ∉ sig
  | .removeC b h => b < w.componentId ∧ ∃ sig, mapFind? w.entitySignatures h = some sig ∧ b ∈ sig
  | .destroy h => (mapFind? w.entitySignatures h).isSome

/-- `World.registerComponents n`: register `n` distinct component types. -/
def World.registerComponents : ℕ → World → StepResult World
  | 0, w => .ok w
  | n + 1, w => (w.registerComponent).andThen (World.registerComponents n)

/-- Register the listed systems, in order. -/
def World.registerSystems : List (List ℕ) → World → StepResult World
  | [], w => .ok w
  | bits :: rest, w => (w.registerSystem bits).andThen (World.registerSystems rest)

/-- The setup phase (§6: every `registerComponentType` and `registerSystem`
happens once, before entities exist): from the program-start state, register
`n` component types, then the listed systems. -/
def World.setup (n : ℕ) (ls : List (List ℕ)) : StepResult World :=
  (World.registerComponents n World.init).andThen (World.registerSystems ls)

/-- A valid setup: at most 64 types, and each system requires a nonempty list
of registered types (`System<T1..Tn>` has `n ≥ 1` template arguments, each
registered before use). -/
def SetupValid (n : ℕ) (ls : List (List ℕ)) : Prop :=
  n ≤ componentBitsetSize ∧ ∀ bits ∈ ls, bits ≠ [] ∧ ∀ b ∈ bits, b < n

/-- The worlds reachable from a valid setup by completed valid mutations. -/
inductive WReach : World → Prop
  | setup (n : ℕ) (ls : List (List ℕ)) (w : World) :
      SetupValid n ls → World.setup n ls = .ok w → WReach w
  | step (w w' : World) (op : WOp) :
      WReach w → op.Valid w → op.run w = .ok w' → WReach w'

/-! ### State accessors and the world invariant -/

/-- The system statics of instantiation `i` (junk default for bad indices; all
uses are guarded by `i < w.systems.length`). -/
def sysAt (w : World) (i : ℕ) : SystemState :=
  (w.systems.get? i).getD ⟨∅, ∅, []⟩

/-- The store of the component type registered at bit `b`. -/
def storeAt (w : World) (b : ℕ) : Registrar Unit :=
  (w.stores.get? b).getD (Registrar.empty Unit)

/-- `systemDescriptors[b]`: the descriptors registered at bit `b`. -/
def descsAt (w : World) (b : ℕ) : List SystemDescriptor :=
  (w.systemDescriptors.get? b).getD []

/-- The consistency invariant tying together the entity directory, the
per-type stores, the per-bit descriptor index, the system caches and the
back-reference sets.  It holds after setup and is preserved by every
completed valid mutation (`winv_of_reach` below). -/
structure WInv (w : World) : Prop where
  ndSig : NodupKeys w.entitySignatures
  ndBr : NodupKeys w.entitySystemDescriptors
  keysEq : ∀ h, (mapFind? w.entitySignatures h).isSome ↔
    (mapFind? w.entitySystemDescriptors h).isSome
  fresh : ∀ h, (mapFind? w.entitySignatures h).isSome → h < w.entityId
  storesLen : w.stores.length = w.componentId
  descsLen : w.systemDescriptors.length = w.componentId
  cidLe : w.componentId ≤ componentBitsetSize
  sigBits : ∀ h sig, mapFind? w.entitySignatures h = some sig → ∀ b ∈ sig, b < w.componentId
  sysSigNonempty : ∀ i, i < w.systems.length → (sysAt w i).signature ≠ ∅
  sysSigBits : ∀ i, i < w.systems.length → ∀ b ∈ (sysAt w i).signature, b < w.componentId
  descIdx : ∀ b, b < w.componentId → ∀ d, d ∈ descsAt w b ↔
    (d.sysIdx < w.systems.length ∧ d.signature = (sysAt w d.sysIdx).signature ∧
      b ∈ (sysAt w d.sysIdx).signature)
  membership : ∀ i, i < w.systems.length → ∀ h, h ∈ (sysAt w i).entities ↔
    ∃ sig, mapFind? w.entitySignatures h = some sig ∧ (sysAt w i).signature ⊆ sig
  brValid : ∀ h brs, mapFind? w.entitySystemDescriptors h = some brs →
    ∀ p ∈ brs, p.1 < w.componentId ∧ p.2 < w.systems.length ∧
      p.1 ∈ (sysAt w p.2).signature
  brComplete : ∀ h brs, mapFind? w.entitySystemDescriptors h = some brs →
    ∀ i, i < w.systems.length → h ∈ (sysAt w i).entities → ∃ b, (b, i) ∈ brs
  storeCoh : ∀ b, b < w.componentId → ∀ h,
    ((mapFind? (storeAt w b).handleMap h).isSome ↔
      ∃ sig, mapFind? w.entitySignatures h = some sig ∧ b ∈ sig)
  storeInv : ∀ b, b < w.componentId → Registrar.Inv (storeAt w b)

/-- The invariant of the setup phase: no entities exist yet, every store is
still empty, and the per-bit descriptor index matches the registered systems.
It implies `WInv` (`sinv_winv` below). -/
structure SInv (w : World) : Prop where
  noSigs : w.entitySignatures = []
  noBrs : w.entitySystemDescriptors = []
  storesLen : w.stores.length = w.componentId
  descsLen : w.systemDescriptors.length = w.componentId
  cidLe : w.componentId ≤ componentBitsetSize
  storesEmpty : ∀ b, b < w.componentId → storeAt w b = Registrar.empty Unit
  sysEmpty : ∀ i, i < w.systems.length → (sysAt w i).entities = ∅
  sysSigNonempty : ∀ i, i < w.systems.length → (sysAt w i).signature ≠ ∅
  sysSigBits : ∀ i, i < w.systems.length → ∀ b ∈ (sysAt w i).signature, b < w.componentId
  descIdx : ∀ b, b < w.componentId → ∀ d, d ∈ descsAt w b ↔
    (d.sysIdx < w.systems.length ∧ d.signature = (sysAt w d.sysIdx).signature ∧
      b ∈ (sysAt w d.sysIdx).signature)

/-! ### Concrete scenario states (used by witnesses and counterexamples) -/

/-- One component type (bit 0), one system requiring it; for witnesses. -/
def exwA : World := (World.setup 1 [[0]]).state

/-- `exwA` after `createEntity` (handle 1). -/
def exwB : World := (exwA.createEntity).2

/-- `exwB` after `addComponent` of bit 0 to entity 1. -/
def exwC : World := (exwB.addComponent 0 1).state

/-- Duplicate-attach scenario, release build: one component type, no systems. -/
def dupw0 : World := (World.setup 1 []).state

/-- `dupw0` after `createEntity` (handle 1). -/
def dupw1 : World := (dupw0.createEntity).2

/-- First attach of bit 0 to entity 1 (release build, through the wrapper). -/
def dupr1 : StepResult World := EntityW.addComponent dupw1 false 0 1

/-- The duplicate attach of bit 0 to entity 1 (release build). -/
def dupr2 : StepResult World := EntityW.addComponent dupr1.state false 0 1

/-- The duplicate attach issued directly through `World::addComponent`. -/
def duprW : StepResult World := World.addComponent dupr1.state 0 1

/-- Cascade-destroy scenario: types A = bit 0, B = bit 1; systems requiring
{A}, {B}, {A,B}; entity 1 will hold A and B. -/
def cdw0 : World := (World.setup 2 [[0], [1], [0, 1]]).state

/-- `cdw0` after `createEntity` (handle 1). -/
def cdw1 : World := (cdw0.createEntity).2

/-- `cdw1` after `addComponent<A>` on entity 1. -/
def cdw2 : World := (cdw1.addComponent 0 1).state

/-- `cdw2` after `addComponent<B>` on entity 1. -/
def cdw3 : World := (cdw2.addComponent 1 1).state

/-- `destroyEntity(1)` on `cdw3`. -/
def cdw4 : StepResult World := cdw3.destroyEntity 1

/-- Stale back-reference scenario: types A = bit 0, B = bit 1; one system
requiring {A,B}; entity 1 gains A, gains B, then loses A. -/
def sbw0 : World := (World.setup 2 [[0, 1]]).state

/-- `sbw0` after `createEntity` (handle 1). -/
def sbw1 : World := (sbw0.createEntity).2

/-- `sbw1` after `addComponent<A>` on entity 1. -/
def sbw2 : World := (sbw1.addComponent 0 1).state

/-- `sbw2` after `addComponent<B>` on entity 1 (the system membership is
recorded through bit 1's descriptor). -/
def sbw3 : World := (sbw2.addComponent 1 1).state

/-- `removeComponent<A>` on entity 1: the eviction happens through bit 0's
descriptor, whose address is not the one recorded in the back-reference set. -/
def sbw4 : StepResult World := sbw3.removeComponent 0 1

/-- The `§8` swap-and-pop scenario's store: components of one type attached
to entities 1, 2, 3 in order, with values 10, 20, 30. -/
def c8store : Registrar ℕ :=
  (((Registrar.empty ℕ).addComponent 10 1).addComponent 20 2).addComponent 30 3

/-- `c8store` after detaching entity 1's component. -/
def c8after : Registrar ℕ :=
  match c8store.removeComponent 1 with
  | .ok s => s
  | .error _ => Registrar.empty ℕ

/-! ### Association-map lemmas -/

theorem mapFind?_cons_of_eq {α β : Type} [DecidableEq α] {p : α × β} {k : α}
    (rest : List (α × β)) (hp : p.1 = k) : mapFind? (p :: rest) k = some p.2 := by
  simp [mapFind?, hp]

theorem mapFind?_cons_of_ne {α β : Type} [DecidableEq α] {p : α × β} {k : α}
    (rest : List (α × β)) (hp : p.1 ≠ k) : mapFind? (p :: rest) k = mapFind? rest k := by
  simp [mapFind?, hp]

theorem mapAssign_cons_of_eq {α β : Type} [DecidableEq α] {p : α × β} {k : α} (v : β)
    (rest : List (α × β)) (hp : p.1 = k) :
    mapAssign (p :: rest) k v = (k, v) :: mapAssign rest k v := by
  simp [mapAssign, hp]

theorem mapAssign_cons_of_ne {α β : Type} [DecidableEq α] {p : α × β} {k : α} (v : β)
    (rest : List (α × β)) (hp : p.1 ≠ k) :
    mapAssign (p :: rest) k v = p :: mapAssign rest k v := by
  simp [mapAssign, hp]

theorem mapErase_cons_of_eq {α β : Type} [DecidableEq α] {p : α × β} {k : α}
    (rest : List (α × β)) (hp : p.1 = k) : mapErase (p :: rest) k = mapErase rest k := by
  simp [mapErase, List.filter_cons, hp]

theorem mapErase_cons_of_ne {α β : Type} [DecidableEq α] {p : α × β} {k : α}
    (rest : List (α × β)) (hp : p.1 ≠ k) :
    mapErase (p :: rest) k = p :: mapErase rest k := by
  simp [mapErase, List.filter_cons, hp]

theorem mapFind?_isSome_iff_mem {α β : Type} [DecidableEq α] (l : List (α × β)) (k : α) :
    (mapFind? l k).isSome ↔ k ∈ l.map Prod.fst := by
  induction l with
  | nil => simp [mapFind?]
  | cons p rest ih =>
    by_cases hp : p.1 = k
    · rw [mapFind?_cons_of_eq rest hp, List.map_cons]
      simp [hp]
    · rw [mapFind?_cons_of_ne rest hp, List.map_cons]
      simp only [List.mem_cons, ih]
      constructor
      · exact Or.inr
      · rintro (h | h)
        · exact absurd h.symm hp
        · exact h

theorem mapFind?_eq_none_iff {α β : Type} [DecidableEq α] (l : List (α × β)) (k : α) :
    mapFind? l k = none ↔ k ∉ l.map Prod.fst := by
  rw [← mapFind?_isSome_iff_mem]
  cases mapFind? l k <;> simp

theorem mapFind?_append_some {α β : Type} [DecidableEq α] {l l' : List (α × β)} {k : α}
    {v : β} (hfind : mapFind? l k = some v) : mapFind? (l ++ l') k = some v := by
  induction l with
  | nil => simp [mapFind?] at hfind
  | cons p rest ih =>
    by_cases hp : p.1 = k
    · rw [mapFind?_cons_of_eq rest hp] at hfind
      rw [List.cons_append, mapFind?_cons_of_eq _ hp]
      exact hfind
    · rw [mapFind?_cons_of_ne rest hp] at hfind
      rw [List.cons_append, mapFind?_cons_of_ne _ hp]
      exact ih hfind

theorem mapFind?_append_none {α β : Type} [DecidableEq α] {l : List (α × β)}
    (l' : List (α × β)) {k : α} (hfind : mapFind? l k = none) :
    mapFind? (l ++ l') k = mapFind? l' k := by
  induction l with
  | nil => simp
  | cons p rest ih =>
    by_cases hp : p.1 = k
    · rw [mapFind?_cons_of_eq rest hp] at hfind
      exact absurd hfind (by simp)
    · rw [mapFind?_cons_of_ne rest hp] at hfind
      rw [List.cons_append, mapFind?_cons_of_ne _ hp]
      exact ih hfind

theorem mapFind?_singleton {α β : Type} [DecidableEq α] (k : α) (v : β) :
    mapFind? [(k, v)] k = some v := by
  simp [mapFind?]

theorem mapFind?_singleton_ne {α β : Type} [DecidableEq α] {k k' : α} (v : β)
    (hne : k' ≠ k) : mapFind? [(k, v)] k' = none :=
  mapFind?_cons_of_ne [] (fun hk : k = k' => hne hk.symm)

theorem mapEmplace_of_isSome {α β : Type} [DecidableEq α] {l : List (α × β)} {k : α}
    (v : β) (hk : (mapFind? l k).isSome) : mapEmplace l k v = l := by
  simp [mapEmplace, hk]

theorem mapEmplace_of_none {α β : Type} [DecidableEq α] {l : List (α × β)} {k : α}
    (v : β) (hk : mapFind? l k = none) : mapEmplace l k v = l ++ [(k, v)] := by
  simp [mapEmplace, hk]

theorem mapFind?_emplace_self {α β : Type} [DecidableEq α] {l : List (α × β)} {k : α}
    (v : β) (hk : mapFind? l k = none) : mapFind? (mapEmplace l k v) k = some v := by
  rw [mapEmplace_of_none v hk, mapFind?_append_none _ hk, mapFind?_singleton]

theorem mapFind?_emplace_ne {α β : Type} [DecidableEq α] (l : List (α × β)) {k k' : α}
    (v : β) (hne : k' ≠ k) : mapFind? (mapEmplace l k v) k' = mapFind? l k' := by
  unfold mapEmplace
  split
  · rfl
  · cases hfind : mapFind? l k' with
    | some w => exact mapFind?_append_some hfind
    | none => rw [mapFind?_append_none _ hfind, mapFind?_singleton_ne v hne]

theorem mapFind?_assign_self {α β : Type} [DecidableEq α] {l : List (α × β)} {k : α}
    (v : β) (hk : (mapFind? l k).isSome) : mapFind? (mapAssign l k v) k = some v := by
  induction l with
  | nil => simp [mapFind?] at hk
  | cons p rest ih =>
    by_cases hp : p.1 = k
    · rw [mapAssign_cons_of_eq v rest hp, mapFind?_cons_of_eq _ rfl]
    · rw [mapFind?_cons_of_ne rest hp] at hk
      rw [mapAssign_cons_of_ne v rest hp, mapFind?_cons_of_ne _ hp]
      exact ih hk

theorem mapFind?_assign_none {α β : Type} [DecidableEq α] {l : List (α × β)} {k : α}
    (v : β) (hk : mapFind? l k = none) : mapAssign l k v = l := by
  induction l with
  | nil => rfl
  | cons p rest ih =>
    by_cases hp : p.1 = k
    · rw [mapFind?_cons_of_eq rest hp] at hk
      exact absurd hk (by simp)
    · rw [mapFind?_cons_of_ne rest hp] at hk
      rw [mapAssign_cons_of_ne v rest hp, ih hk]

theorem mapFind?_assign_ne {α β : Type} [DecidableEq α] (l : List (α × β)) {k k' : α}
    (v : β) (hne : k' ≠ k) : mapFind? (mapAssign l k v) k' = mapFind? l k' := by
  induction l with
  | nil => rfl
  | cons p rest ih =>
    by_cases hp : p.1 = k
    · rw [mapAssign_cons_of_eq v rest hp,
        mapFind?_cons_of_ne _ (fun hk : (k, v).1 = k' => hne hk.symm),
        mapFind?_cons_of_ne _ (fun hk : p.1 = k' => hne (hp ▸ hk).symm)]
      exact ih
    · rw [mapAssign_cons_of_ne v rest hp]
      by_cases hpk : p.1 = k'
      · rw [mapFind?_cons_of_eq _ hpk, mapFind?_cons_of_eq _ hpk]
      · rw [mapFind?_cons_of_ne _ hpk, mapFind?_cons_of_ne _ hpk]
        exact ih

theorem mapAssign_keys {α β : Type} [DecidableEq α] (l : List (α × β)) (k : α) (v : β) :
    (mapAssign l k v).map Prod.fst = l.map Prod.fst := by
  unfold mapAssign
  rw [List.map_map]
  apply List.map_congr_left
  intro p _
  by_cases hp : p.1 = k <;> simp [hp]

theorem mapAssign_self {α β : Type} [DecidableEq α] {l : List (α × β)} {k : α} {v : β}
    (hnd : NodupKeys l) (hk : mapFind? l k = some v) : mapAssign l k v = l := by
  induction l with
  | nil => rfl
  | cons p rest ih =>
    simp only [NodupKeys, List.map_cons, List.nodup_cons] at hnd
    by_cases hp : p.1 = k
    · rw [mapFind?_cons_of_eq rest hp] at hk
      have hrest : mapFind? rest k = none :=
        (mapFind?_eq_none_iff rest k).mpr (hp ▸ hnd.1)
      rw [mapAssign_cons_of_eq v rest hp, mapFind?_assign_none v hrest]
      have : (k, v) = p := by
        obtain ⟨a, b⟩ := p
        simp only at hp
        simp only [Option.some.injEq] at hk
        simp [hp, hk]
      rw [this]
    · rw [mapFind?_cons_of_ne rest hp] at hk
      rw [mapAssign_cons_of_ne v rest hp, ih hnd.2 hk]

theorem mapFind?_erase_self {α β : Type} [DecidableEq α] (l : List (α × β)) (k : α) :
    mapFind? (mapErase l k) k = none := by
  induction l with
  | nil => rfl
  | cons p rest ih =>
    by_cases hp : p.1 = k
    · rw [mapErase_cons_of_eq rest hp]
      exact ih
    · rw [mapErase_cons_of_ne rest hp, mapFind?_cons_of_ne _ hp]
      exact ih

theorem mapFind?_erase_ne {α β : Type} [DecidableEq α] (l : List (α × β)) {k k' : α}
    (hne : k' ≠ k) : mapFind? (mapErase l k) k' = mapFind? l k' := by
  induction l with
  | nil => rfl
  | cons p rest ih =>
    by_cases hp : p.1 = k
    · have hpk : p.1 ≠ k' := fun hk => hne (hk ▸ hp ▸ rfl)
      rw [mapErase_cons_of_eq rest hp, mapFind?_cons_of_ne rest hpk]
      exact ih
    · rw [mapErase_cons_of_ne rest hp]
      by_cases hpk : p.1 = k'
      · rw [mapFind?_cons_of_eq _ hpk, mapFind?_cons_of_eq _ hpk]
      · rw [mapFind?_cons_of_ne _ hpk, mapFind?_cons_of_ne _ hpk]
        exact ih

theorem mapErase_assign {α β : Type} [DecidableEq α] (l : List (α × β)) (k : α)
    (v : β) : mapErase (mapAssign l k v) k = mapErase l k := by
  induction l with
  | nil => rfl
  | cons p rest ih =>
    by_cases hp : p.1 = k
    · rw [mapAssign_cons_of_eq v rest hp, mapErase_cons_of_eq _ rfl,
        mapErase_cons_of_eq rest hp]
      exact ih
    · rw [mapAssign_cons_of_ne v rest hp, mapErase_cons_of_ne _ hp,
        mapErase_cons_of_ne rest hp, ih]

theorem mapErase_keys_sublist {α β : Type} [DecidableEq α] (l : List (α × β)) (k : α) :
    ((mapErase l k).map Prod.fst).Sublist (l.map Prod.fst) :=
  (List.filter_sublist l).map Prod.fst

theorem NodupKeys.nil {α β : Type} : NodupKeys ([] : List (α × β)) := List.nodup_nil

theorem NodupKeys.emplace {α β : Type} [DecidableEq α] {l : List (α × β)} {k : α}
    {v : β} (hnd : NodupKeys l) : NodupKeys (mapEmplace l k v) := by
  unfold mapEmplace
  split
  · exact hnd
  · rename_i hfind
    unfold NodupKeys
    rw [List.map_append]
    apply List.Nodup.append hnd (by simp)
    intro a ha hb
    simp only [List.map_cons, List.map_nil, List.mem_singleton] at hb
    subst hb
    rw [← mapFind?_isSome_iff_mem] at ha
    simp_all

theorem NodupKeys.assign {α β : Type} [DecidableEq α] {l : List (α × β)} {k : α}
    {v : β} (hnd : NodupKeys l) : NodupKeys (mapAssign l k v) := by
  unfold NodupKeys
  rw [mapAssign_keys]
  exact hnd

theorem NodupKeys.erase {α β : Type} [DecidableEq α] {l : List (α × β)} {k : α}
    (hnd : NodupKeys l) : NodupKeys (mapErase l k) :=
  (mapErase_keys_sublist l k).nodup hnd

/-! ### List helpers for swap-and-pop -/

theorem listSet_self {C : Type} {l : List C} {a : C} : ∀ {i : ℕ}, l.get? i = some a →
    l.set i a = l := by
  induction l with
  | nil => intro i hi; simp at hi
  | cons x rest ih =>
    intro i hi
    cases i with
    | zero =>
      simp only [List.get?] at hi
      cases hi
      rfl
    | succ n =>
      simp only [List.get?] at hi
      simp [List.set, ih hi]

theorem listSwap_self {C : Type} (l : List C) (i : ℕ) :
    Registrar.listSwap l i i = l := by
  unfold Registrar.listSwap
  cases hi : l.get? i with
  | none => rfl
  | some a => simp [listSet_self hi]

theorem listSwap_length {C : Type} (l : List C) (i j : ℕ) :
    (Registrar.listSwap l i j).length = l.length := by
  unfold Registrar.listSwap
  cases l.get? i <;> cases l.get? j <;> simp

theorem mapErase_of_none {α β : Type} [DecidableEq α] {l : List (α × β)} {k : α}
    (hk : mapFind? l k = none) : mapErase l k = l := by
  induction l with
  | nil => rfl
  | cons p rest ih =>
    by_cases hp : p.1 = k
    · rw [mapFind?_cons_of_eq rest hp] at hk
      exact absurd hk (by simp)
    · rw [mapFind?_cons_of_ne rest hp] at hk
      rw [mapErase_cons_of_ne rest hp, ih hk]

theorem mapErase_length {α β : Type} [DecidableEq α] {l : List (α × β)} {k : α}
    (hnd : NodupKeys l) (hk : (mapFind? l k).isSome) :
    (mapErase l k).length + 1 = l.length := by
  induction l with
  | nil => simp [mapFind?] at hk
  | cons p rest ih =>
    simp only [NodupKeys, List.map_cons, List.nodup_cons] at hnd
    by_cases hp : p.1 = k
    · have hrest : mapFind? rest k = none :=
        (mapFind?_eq_none_iff rest k).mpr (hp ▸ hnd.1)
      rw [mapErase_cons_of_eq rest hp, mapErase_of_none hrest]
      simp
    · rw [mapFind?_cons_of_ne rest hp] at hk
      rw [mapErase_cons_of_ne rest hp]
      simpa using ih hnd.2 hk

theorem mapAssign_length {α β : Type} [DecidableEq α] (l : List (α × β)) (k : α)
    (v : β) : (mapAssign l k v).length = l.length :=
  List.length_map l _

namespace Registrar

theorem empty_inv (C : Type) : Inv (empty C) := by
  refine ⟨NodupKeys.nil, NodupKeys.nil, ?_, rfl, ?_⟩
  · intro h i
    simp [empty, mapFind?]
  · intro i
    simp [empty, mapFind?]

/-- A valid attach (the handle holds no instance yet): the resulting store,
its invariant, and the exact effect on both maps. -/
theorem add_spec {C : Type} {s : Registrar C} {h : ℕ} (c : C) (hinv : Inv s)
    (habs : mapFind? s.handleMap h = none) :
    (s.addComponent c h).components = s.components ++ [c] ∧
    mapFind? (s.addComponent c h).handleMap h = some s.components.length ∧
    (∀ h', h' ≠ h →
      mapFind? (s.addComponent c h).handleMap h' = mapFind? s.handleMap h') ∧
    mapFind? (s.addComponent c h).reverseMap s.components.length = some h ∧
    (∀ i, i ≠ s.components.length →
      mapFind? (s.addComponent c h).reverseMap i = mapFind? s.reverseMap i) ∧
    Inv (s.addComponent c h) := by
  obtain ⟨hndHM, hndRM, hbij, hlen, hdense⟩ := hinv
  have hrmabs : mapFind? s.reverseMap s.components.length = none := by
    cases hfind : mapFind? s.reverseMap s.components.length with
    | none => rfl
    | some x =>
      have := (hdense s.components.length).mp (by simp [hfind])
      omega
  have hlensucc : (s.components ++ [c]).length - 1 = s.components.length := by simp
  have hhm : (s.addComponent c h).handleMap =
      s.handleMap ++ [(h, s.components.length)] := by
    unfold addComponent
    simp only [hlensucc]
    exact mapEmplace_of_none _ habs
  have hrm : (s.addComponent c h).reverseMap =
      s.reverseMap ++ [(s.components.length, h)] := by
    unfold addComponent
    simp only [hlensucc]
    exact mapEmplace_of_none _ hrmabs
  have hcomps : (s.addComponent c h).components = s.components ++ [c] := rfl
  refine ⟨hcomps, ?_, ?_, ?_, ?_, ?_⟩
  · rw [hhm, mapFind?_append_none _ habs, mapFind?_singleton]
  · intro h' hne
    rw [hhm]
    cases hfind : mapFind? s.handleMap h' with
    | some v => exact mapFind?_append_some hfind
    | none => rw [mapFind?_append_none _ hfind, mapFind?_singleton_ne _ hne]
  · rw [hrm, mapFind?_append_none _ hrmabs, mapFind?_singleton]
  · intro i hne
    rw [hrm]
    cases hfind : mapFind? s.reverseMap i with
    | some v => exact mapFind?_append_some hfind
    | none => rw [mapFind?_append_none _ hfind, mapFind?_singleton_ne _ hne]
  · refine ⟨?_, ?_, ?_, ?_, ?_⟩
    · rw [hhm]
      have : NodupKeys (mapEmplace s.handleMap h (s.components.length)) :=
        NodupKeys.emplace hndHM
      rwa [mapEmplace_of_none _ habs] at this
    · rw [hrm]
      have : NodupKeys (mapEmplace s.reverseMap s.components.length h) :=
        NodupKeys.emplace hndRM
      rwa [mapEmplace_of_none _ hrmabs] at this
    · intro x i
      rw [hhm, hrm]
      by_cases hx : x = h
      · subst hx
        rw [mapFind?_append_none _ habs, mapFind?_singleton]
        by_cases hi : i = s.components.length
        · subst hi
          rw [mapFind?_append_none _ hrmabs, mapFind?_singleton]
          simp
        · constructor
          · intro hsome
            exact absurd (Option.some.inj hsome).symm hi
          · intro hsome
            rcases hfind : mapFind? s.reverseMap i with _ | y
            · rw [mapFind?_append_none _ hfind, mapFind?_singleton_ne _ hi] at hsome
              exact absurd hsome (by simp)
            · rw [mapFind?_append_some hfind] at hsome
              cases hsome
              have := (hbij x i).mpr hfind
              rw [habs] at this
              exact absurd this (by simp)
      · rw [show mapFind? (s.handleMap ++ [(h, s.components.length)]) x =
              mapFind? s.handleMap x by
            cases hfind : mapFind? s.handleMap x with
            | some v => exact mapFind?_append_some hfind
            | none => rw [mapFind?_append_none _ hfind, mapFind?_singleton_ne _ hx]]
        by_cases hi : i = s.components.length
        · subst hi
          rw [mapFind?_append_none _ hrmabs, mapFind?_singleton]
          constructor
          · intro hsome
            have := (hbij x _).mp hsome
            rw [hrmabs] at this
            exact absurd this (by simp)
          · intro hsome
            exact absurd (Option.some.inj hsome).symm hx
        · rw [show mapFind? (s.reverseMap ++ [(s.components.length, h)]) i =
                mapFind? s.reverseMap i by
              cases hfind : mapFind? s.reverseMap i with
              | some v => exact mapFind?_append_some hfind
              | none => rw [mapFind?_append_none _ hfind, mapFind?_singleton_ne _ hi]]
          exact hbij x i
    · rw [hhm, hcomps]
      simp [hlen]
    · intro i
      rw [hrm, hcomps]
      by_cases hi : i = s.components.length
      · subst hi
        rw [mapFind?_append_none _ hrmabs, mapFind?_singleton]
        simp
      · rw [show mapFind? (s.reverseMap ++ [(s.components.length, h)]) i =
              mapFind? s.reverseMap i by
            cases hfind : mapFind? s.reverseMap i with
            | some v => exact mapFind?_append_some hfind
            | none => rw [mapFind?_append_none _ hfind, mapFind?_singleton_ne _ hi]]
        rw [hdense i]
        simp only [List.length_append, List.length_cons, List.length_nil]
        omega

/-- A valid detach (the handle holds an instance): the removal succeeds, the
invariant is preserved, the dense array shrinks by one, the detached handle's
entry is gone, and every other handle keeps (exactly) its boundness. -/
theorem remove_spec {C : Type} {s : Registrar C} {h index : ℕ} (hinv : Inv s)
    (hfind : mapFind? s.handleMap h = some index) :
    ∃ s', s.removeComponent h = Except.ok s' ∧
      Inv s' ∧
      s'.components.length + 1 = s.components.length ∧
      mapFind? s'.handleMap h = none ∧
      (∀ h', h' ≠ h →
        (mapFind? s'.handleMap h').isSome = (mapFind? s.handleMap h').isSome) := by
  obtain ⟨hndHM, hndRM, hbij, hlen, hdense⟩ := hinv
  have hrmi : mapFind? s.reverseMap index = some h := (hbij h index).mp hfind
  have hidx : index < s.components.length := (hdense index).mp (by simp [hrmi])
  have hlenpos : 0 < s.components.length := by omega
  have hlast : s.components.length - 1 < s.components.length := by omega
  obtain ⟨oh, hoh⟩ : ∃ oh,
      mapFind? s.reverseMap (s.components.length - 1) = some oh := by
    have := (hdense (s.components.length - 1)).mpr hlast
    cases hfd : mapFind? s.reverseMap (s.components.length - 1) with
    | none => rw [hfd] at this; simp at this
    | some x => exact ⟨x, rfl⟩
  have hhmoh : mapFind? s.handleMap oh = some (s.components.length - 1) :=
    (hbij oh (s.components.length - 1)).mpr hoh
  have hswaplen : (Registrar.listSwap s.components index (s.components.length - 1)).length
      = s.components.length := listSwap_length _ _ _
  have hc2len : ((Registrar.listSwap s.components index (s.components.length - 1)).dropLast).length
      = s.components.length - 1 := by
    rw [List.length_dropLast, hswaplen]
  have hohh : oh = h ↔ index = s.components.length - 1 := by
    constructor
    · intro he
      rw [he, hfind] at hhmoh
      exact Option.some.inj hhmoh
    · intro he
      rw [← he, hrmi] at hoh
      exact (Option.some.inj hoh).symm
  have hrun : s.removeComponent h = Except.ok
      { components := (Registrar.listSwap s.components index (s.components.length - 1)).dropLast
        handleMap := mapErase (mapAssign s.handleMap oh index) h
        reverseMap := mapErase (mapAssign s.reverseMap index oh) (s.components.length - 1) } := by
    unfold removeComponent
    rw [hfind]
    simp only [hswaplen, hoh, hidx, if_true]
    rw [if_pos (by simp [hhmoh]), if_pos (by simp [hrmi]), hc2len]
  -- the three new containers
  have hmH : mapFind? (mapErase (mapAssign s.handleMap oh index) h) h = none :=
    mapFind?_erase_self _ _
  have hmOH : oh ≠ h → mapFind? (mapErase (mapAssign s.handleMap oh index) h) oh
      = some index := by
    intro hne
    rw [mapFind?_erase_ne _ hne, mapFind?_assign_self _ (by simp [hhmoh])]
  have hmOther : ∀ x, x ≠ h → x ≠ oh →
      mapFind? (mapErase (mapAssign s.handleMap oh index) h) x = mapFind? s.handleMap x := by
    intro x hxh hxo
    rw [mapFind?_erase_ne _ hxh, mapFind?_assign_ne _ _ hxo]
  have rmLast : mapFind? (mapErase (mapAssign s.reverseMap index oh)
      (s.components.length - 1)) (s.components.length - 1) = none :=
    mapFind?_erase_self _ _
  have rmIdx : index ≠ s.components.length - 1 →
      mapFind? (mapErase (mapAssign s.reverseMap index oh) (s.components.length - 1)) index
      = some oh := by
    intro hne
    rw [mapFind?_erase_ne _ hne, mapFind?_assign_self _ (by simp [hrmi])]
  have rmOther : ∀ i, i ≠ s.components.length - 1 → i ≠ index →
      mapFind? (mapErase (mapAssign s.reverseMap index oh) (s.components.length - 1)) i
      = mapFind? s.reverseMap i := by
    intro i hil hii
    rw [mapFind?_erase_ne _ hil, mapFind?_assign_ne _ _ hii]
  -- bijectivity of the new maps
  have hbij' : ∀ x i,
      mapFind? (mapErase (mapAssign s.handleMap oh index) h) x = some i ↔
      mapFind? (mapErase (mapAssign s.reverseMap index oh) (s.components.length - 1)) i
        = some x := by
    intro x i
    by_cases hx : x = h
    · rw [hx, hmH]
      constructor
      · intro hsome
        exact absurd hsome (by simp)
      · intro hsome
        exfalso
        by_cases hil : i = s.components.length - 1
        · rw [hil, rmLast] at hsome
          exact absurd hsome (by simp)
        · by_cases hii : i = index
          · have hne : index ≠ s.components.length - 1 := hii ▸ hil
            rw [hii, rmIdx hne] at hsome
            have : oh = h := Option.some.inj hsome
            exact hne (hohh.mp this)
          · rw [rmOther i hil hii] at hsome
            have := (hbij h i).mpr hsome
            rw [hfind] at this
            exact hii (Option.some.inj this).symm
    · by_cases hxo : x = oh
      · have hne : index ≠ s.components.length - 1 := by
          intro he
          exact hx (hxo.trans (hohh.mpr he))
        rw [hxo, hmOH (fun he => hx (hxo.trans he))]
        by_cases hii : i = index
        · rw [hii, rmIdx hne]
          simp
        · constructor
          · intro hsome
            exact absurd (Option.some.inj hsome) (fun he => hii he.symm)
          · intro hsome
            exfalso
            by_cases hil : i = s.components.length - 1
            · rw [hil, rmLast] at hsome
              exact absurd hsome (by simp)
            · rw [rmOther i hil hii] at hsome
              have := (hbij oh i).mpr hsome
              rw [hhmoh] at this
              exact hil (Option.some.inj this).symm
      · rw [hmOther x hx hxo]
        by_cases hil : i = s.components.length - 1
        · rw [hil, rmLast]
          constructor
          · intro hsome
            exfalso
            have := (hbij x (s.components.length - 1)).mp (hil ▸ hsome)
            rw [hoh] at this
            exact hxo (Option.some.inj this).symm
          · intro hsome
            exact absurd hsome (by simp)
        · by_cases hii : i = index
          · rw [hii, rmIdx (hii ▸ hil)]
            constructor
            · intro hsome
              exfalso
              have := (hbij x index).mp (hii ▸ hsome)
              rw [hrmi] at this
              exact hx (Option.some.inj this).symm
            · intro hsome
              exact absurd (Option.some.inj hsome).symm hxo
          · rw [rmOther i hil hii]
            exact hbij x i
  -- length of the new handle map
  have hmLen : (mapErase (mapAssign s.handleMap oh index) h).length + 1
      = s.handleMap.length := by
    have hpres : (mapFind? (mapAssign s.handleMap oh index) h).isSome := by
      by_cases hho : h = oh
      · rw [hho, mapFind?_assign_self _ (by simp [hhmoh])]
        simp
      · rw [mapFind?_assign_ne _ _ hho, hfind]
        simp
    have := mapErase_length (hndHM.assign) hpres
    rwa [mapAssign_length] at this
  -- density of the new reverse map
  have hdense' : ∀ i,
      (mapFind? (mapErase (mapAssign s.reverseMap index oh) (s.components.length - 1)) i).isSome
      ↔ i < s.components.length - 1 := by
    intro i
    by_cases hil : i = s.components.length - 1
    · rw [hil, rmLast]
      simp
    · by_cases hii : i = index
      · rw [hii, rmIdx (hii ▸ hil)]
        simp only [Option.isSome_some, true_iff]
        have : index ≠ s.components.length - 1 := hii ▸ hil
        omega
      · rw [rmOther i hil hii, hdense i]
        omega
  refine ⟨_, hrun, ⟨(hndHM.assign).erase, (hndRM.assign).erase, hbij', ?_, ?_⟩, ?_, hmH, ?_⟩
  · show ((Registrar.listSwap s.components index (s.components.length - 1)).dropLast).length
      = (mapErase (mapAssign s.handleMap oh index) h).length
    rw [hc2len]
    omega
  · intro i
    show (mapFind? (mapErase (mapAssign s.reverseMap index oh) (s.components.length - 1)) i).isSome
      ↔ i < ((Registrar.listSwap s.components index (s.components.length - 1)).dropLast).length
    rw [hc2len]
    exact hdense' i
  · show ((Registrar.listSwap s.components index (s.components.length - 1)).dropLast).length + 1
      = s.components.length
    rw [hc2len]
    omega
  · intro h' hne
    show (mapFind? (mapErase (mapAssign s.handleMap oh index) h) h').isSome
      = (mapFind? s.handleMap h').isSome
    by_cases hho : h' = oh
    · rw [hho, hmOH (fun he => hne (hho ▸ he)), hhmoh]
      rfl
    · rw [hmOther h' hne hho]

theorem remove_of_absent {C : Type} {s : Registrar C} {h : ℕ}
    (habs : mapFind? s.handleMap h = none) :
    s.removeComponent h = Except.error QvError.missingComponent := by
  unfold removeComponent
  rw [habs]

theorem get_of_absent {C : Type} {s : Registrar C} {h : ℕ}
    (habs : mapFind? s.handleMap h = none) :
    s.getComponent h = Except.error QvError.missingComponent := by
  unfold getComponent
  rw [habs]

/-- After a valid attach, `getComponent` returns exactly the attached value
(the new last slot of the dense array). -/
theorem add_get {C : Type} {s : Registrar C} {h : ℕ} (c : C) (hinv : Inv s)
    (habs : mapFind? s.handleMap h = none) :
    (s.addComponent c h).getComponent h = Except.ok c := by
  obtain ⟨hcomps, hfind, -, -, -, -⟩ := add_spec c hinv habs
  unfold getComponent
  rw [hfind, hcomps]
  have hget : (s.components ++ [c]).get? s.components.length = some c := by
    simp [List.get?_eq_getElem?]
  show (match (s.components ++ [c]).get? s.components.length with
        | none => Except.error QvError.outOfRange
        | some cc => Except.ok cc) = Except.ok c
  rw [hget]

/-- Valid attach/detach sequences preserve the store invariant. -/
theorem reach_inv {C : Type} {s : Registrar C} (hr : Reach s) : Inv s := by
  induction hr with
  | empty => exact empty_inv C
  | attach hr habs ih => exact (add_spec _ ih habs).2.2.2.2.2
  | detach hr hsome hrun ih =>
    rename_i s₀ s₁ h
    obtain ⟨i, hfind⟩ : ∃ i, mapFind? s₀.handleMap h = some i := by
      cases hf : mapFind? s₀.handleMap h with
      | none => rw [hf] at hsome; simp at hsome
      | some i => exact ⟨i, rfl⟩
    obtain ⟨s'', hrun', hinv'', -⟩ := remove_spec ih hfind
    rw [hrun] at hrun'
    cases hrun'
    exact hinv''

end Registrar

/-! ### Claim theorems on the component store -/

/-- C3: for every component store and every sequence of valid attach/detach
operations from the empty store, the two indirection maps remain inverse
bijections: `handleMap[entity] == i` holds if and only if
`reverseMap[i] == entity`. -/
theorem c3_indirection_bijective {C : Type} {s : Registrar C}
    (hr : Registrar.Reach s) (entity i : ℕ) :
    mapFind? s.handleMap entity = some i ↔ mapFind? s.reverseMap i = some entity :=
  (Registrar.reach_inv hr).2.2.1 entity i

theorem c3_witness :
    (mapFind? (((Registrar.empty ℕ).addComponent 5 1).addComponent 7 2).handleMap 2 = some 1 ↔
      mapFind? (((Registrar.empty ℕ).addComponent 5 1).addComponent 7 2).reverseMap 1 = some 2) :=
  c3_indirection_bijective
    (Registrar.Reach.attach (Registrar.Reach.attach Registrar.Reach.empty (by decide))
      (by decide)) 2 1

/-- C4: after every sequence of valid attach/detach operations, the dense
array's length equals the handle-to-slot map's size, and the array has no
holes: exactly the indices `0..len-1` are bound (each to the live entity
`reverseMap` records for it). -/
theorem c4_store_density {C : Type} {s : Registrar C} (hr : Registrar.Reach s) :
    s.components.length = s.handleMap.length ∧
    ∀ i, i < s.components.length ↔ (mapFind? s.reverseMap i).isSome := by
  obtain ⟨-, -, -, hlen, hdense⟩ := Registrar.reach_inv hr
  exact ⟨hlen, fun i => (hdense i).symm⟩

theorem c4_witness :
    ((((Registrar.empty ℕ).addComponent 5 1).addComponent 7 2).components.length =
      (((Registrar.empty ℕ).addComponent 5 1).addComponent 7 2).handleMap.length ∧
    ∀ i, i < (((Registrar.empty ℕ).addComponent 5 1).addComponent 7 2).components.length ↔
      (mapFind? (((Registrar.empty ℕ).addComponent 5 1).addComponent 7 2).reverseMap i).isSome) :=
  c4_store_density
    (Registrar.Reach.attach (Registrar.Reach.attach Registrar.Reach.empty (by decide))
      (by decide))

/-- C8: attaching components with values 10, 20, 30 of one type to entities
1, 2, 3 in that order occupies slots 0, 1, 2; after detaching entity 1's
component, entity 3's instance (value 30, formerly last) occupies entity 1's
former slot 0, `handleMap[3]` is that slot, and `reverseMap[0] = 3`. -/
theorem c8_swap_pop :
    c8store.components = [10, 20, 30] ∧
    mapFind? c8store.handleMap 1 = some 0 ∧
    mapFind? c8store.handleMap 3 = some 2 ∧
    c8store.removeComponent 1 = Except.ok c8after ∧
    c8after.components.get? 0 = some 30 ∧
    mapFind? c8after.handleMap 3 = some 0 ∧
    mapFind? c8after.reverseMap 0 = some 3 :=
  ⟨rfl, rfl, rfl, rfl, rfl, rfl, rfl⟩

/-- C2 counterexample: in the code as built (no `QV_DEBUG`), a further attach
of an already-held component type is *not* rejected — the call completes
without an error and modifies the containers: the dense array grows from one
to two elements (and `reverseMap` gains a second entry pointing at the same
handle, while `handleMap` is left unchanged). -/
theorem c2_counterexample :
    (World.setup 1 []).isOk = true ∧
    dupr1.isOk = true ∧
    (mapFind? (storeAt dupr1.state 0).handleMap 1).isSome = true ∧
    dupr2.isOk = true ∧
    (storeAt dupr1.state 0).components.length = 1 ∧
    (storeAt dupr2.state 0).components.length = 2 ∧
    (storeAt dupr2.state 0).handleMap = [(1, 0)] ∧
    (storeAt dupr2.state 0).reverseMap = [(0, 1), (1, 1)] := by
  decide

/-- C2 (amended): only under `QV_DEBUG` is a duplicate attach rejected, by
the assertion in `Entity::addComponent`, which aborts before any container is
modified (the world state at the failure is exactly the entry state); the
failure is an assertion abort, not a `DuplicateComponent` error value, and
without `QV_DEBUG` there is no check at all (see the counterexample). -/
theorem c2_debug_assert_rejects_duplicate (w : World) (b h : ℕ)
    (st : Registrar Unit) (hst : w.stores.get? b = some st)
    (hdup : (mapFind? st.handleMap h).isSome = true) :
    EntityW.addComponent w true b h = StepResult.err QvError.assertFailed w := by
  unfold EntityW.addComponent
  rw [hst]
  simp [hdup]

theorem c2_witness :
    EntityW.addComponent dupr1.state true 0 1 = StepResult.err QvError.assertFailed dupr1.state :=
  c2_debug_assert_rejects_duplicate dupr1.state 0 1
    ⟨[()], [(1, 0)], [(0, 1)]⟩ (by decide) (by decide)

/-! ### World-level lemmas -/

theorem compareSignatures_iff (e s : Finset ℕ) :
    World.compareSignatures e s ↔ s ⊆ e := by
  unfold World.compareSignatures
  exact Finset.inter_eq_right

theorem listEmplace_mem {α : Type} [DecidableEq α] (l : List α) (x p : α) :
    (p ∈ listEmplace l x) ↔ (p ∈ l ∨ p = x) := by
  unfold listEmplace
  split
  · rename_i hx
    constructor
    · exact Or.inl
    · rintro (hp | hp)
      · exact hp
      · exact hp ▸ hx
  · simp

theorem regenerate_frame (w : World) (i : ℕ) :
    (w.regenerate i).componentId = w.componentId ∧
    (w.regenerate i).entityId = w.entityId ∧
    (w.regenerate i).systemDescriptors = w.systemDescriptors ∧
    (w.regenerate i).entitySignatures = w.entitySignatures ∧
    (w.regenerate i).entitySystemDescriptors = w.entitySystemDescriptors ∧
    (w.regenerate i).stores = w.stores ∧
    (w.regenerate i).systems.length = w.systems.length ∧
    (∀ j, (sysAt (w.regenerate i) j).signature = (sysAt w j).signature) ∧
    (∀ j, (sysAt (w.regenerate i) j).entities = (sysAt w j).entities) := by
  unfold World.regenerate
  cases hg : w.systems.get? i with
  | none => exact ⟨rfl, rfl, rfl, rfl, rfl, rfl, rfl, fun j => rfl, fun j => rfl⟩
  | some sys =>
    refine ⟨rfl, rfl, rfl, rfl, rfl, rfl, by simp, ?_, ?_⟩
    · intro j
      unfold sysAt
      by_cases hj : j = i
      · subst hj
        rw [show ((w.systems.set j { sys with componentList := sys.entities.sort (· ≤ ·) }).get? j) = (fun _ => ({ sys with componentList := sys.entities.sort (· ≤ ·) } : SystemState)) <$> w.systems.get? j from List.get?_set_eq _ _ _, hg]
        rfl
      · rw [List.get?_set_ne _ _ (fun he => hj he.symm)]
    · intro j
      unfold sysAt
      by_cases hj : j = i
      · subst hj
        rw [show ((w.systems.set j { sys with componentList := sys.entities.sort (· ≤ ·) }).get? j) = (fun _ => ({ sys with componentList := sys.entities.sort (· ≤ ·) } : SystemState)) <$> w.systems.get? j from List.get?_set_eq _ _ _, hg]
        rfl
      · rw [List.get?_set_ne _ _ (fun he => hj he.symm)]

/-- The effect of the filtered `for_each` of `World::addComponent` over an
arbitrary descriptor list: it completes, touches only the entity sets, the
caches and the entity's back-reference set, inserts the entity into exactly
the listed descriptors' sets whose signature its (fixed) signature covers,
and records exactly those descriptors' addresses. -/
theorem addLoop_spec (b h : ℕ) (l : List SystemDescriptor) :
    ∀ (w : World) (esig : Finset ℕ) (brs₀ : List (ℕ × ℕ)),
    mapFind? w.entitySignatures h = some esig →
    mapFind? w.entitySystemDescriptors h = some brs₀ →
    (∀ d ∈ l, d.sysIdx < w.systems.length) →
    ∃ w', World.addLoop b h l w = .ok w' ∧
      w'.componentId = w.componentId ∧
      w'.entityId = w.entityId ∧
      w'.stores = w.stores ∧
      w'.systemDescriptors = w.systemDescriptors ∧
      w'.entitySignatures = w.entitySignatures ∧
      w'.systems.length = w.systems.length ∧
      (∀ j, (sysAt w' j).signature = (sysAt w j).signature) ∧
      (∀ j x, x ≠ h → (x ∈ (sysAt w' j).entities ↔ x ∈ (sysAt w j).entities)) ∧
      (∀ j, h ∈ (sysAt w' j).entities ↔
        (h ∈ (sysAt w j).entities ∨ ∃ d ∈ l, d.sysIdx = j ∧ World.compareSignatures esig d.signature)) ∧
      (∀ x, x ≠ h → mapFind? w'.entitySystemDescriptors x = mapFind? w.entitySystemDescriptors x) ∧
      (w'.entitySystemDescriptors.map Prod.fst = w.entitySystemDescriptors.map Prod.fst) ∧
      (∃ brs', mapFind? w'.entitySystemDescriptors h = some brs' ∧
        ∀ p, p ∈ brs' ↔ (p ∈ brs₀ ∨ (p.1 = b ∧ ∃ d ∈ l, d.sysIdx = p.2 ∧ World.compareSignatures esig d.signature))) := by
  induction l with
  | nil =>
    intro w esig brs₀ hsig hbr _
    refine ⟨w, rfl, rfl, rfl, rfl, rfl, rfl, rfl, fun j => rfl, fun j x _ => Iff.rfl,
      fun j => ?_, fun x _ => rfl, rfl, ⟨brs₀, hbr, fun p => ?_⟩⟩
    · simp
    · simp
  | cons d rest ih =>
    intro w esig brs₀ hsig hbr hbound
    have hdlt : d.sysIdx < w.systems.length := hbound d (List.mem_cons_self _ _)
    obtain ⟨sys, hg⟩ : ∃ sys, w.systems.get? d.sysIdx = some sys := by
      cases hg0 : w.systems.get? d.sysIdx with
      | none =>
        have := List.get?_eq_none.mp hg0
        omega
      | some s => exact ⟨s, rfl⟩
    have hsysw : sysAt w d.sysIdx = sys := by
      unfold sysAt
      rw [hg]
      rfl
    by_cases hcmp : World.compareSignatures esig d.signature
    · -- the descriptor qualifies: insert, regenerate, record the back-reference
      have hstep : World.addLoop b h (d :: rest) w = World.addLoop b h rest
          { ({ w with systems := w.systems.set d.sysIdx { sys with entities := insert h sys.entities } } : World).regenerate d.sysIdx with entitySystemDescriptors := mapAssign w.entitySystemDescriptors h (listEmplace brs₀ (b, d.sysIdx)) } := by
        conv_lhs => rw [World.addLoop]
        rw [hsig]
        simp only [hcmp, if_true, hg]
        rw [show (({ w with systems := w.systems.set d.sysIdx { sys with entities := insert h sys.entities } } : World).regenerate d.sysIdx).entitySystemDescriptors = w.entitySystemDescriptors from (regenerate_frame _ _).2.2.2.2.1, hbr]
      obtain ⟨hrc, hre, hrd, hrs, hrb, hrst, hrlen, hrsig, hrent⟩ :=
        regenerate_frame ({ w with systems := w.systems.set d.sysIdx { sys with entities := insert h sys.entities } } : World) d.sysIdx
      -- the intermediate state after this iteration
      set w3 : World := { ({ w with systems := w.systems.set d.sysIdx { sys with entities := insert h sys.entities } } : World).regenerate d.sysIdx with entitySystemDescriptors := mapAssign w.entitySystemDescriptors h (listEmplace brs₀ (b, d.sysIdx)) } with hw3
      have h3sig : mapFind? w3.entitySignatures h = some esig := by
        rw [show w3.entitySignatures = w.entitySignatures from hrs]
        exact hsig
      have h3br : mapFind? w3.entitySystemDescriptors h =
          some (listEmplace brs₀ (b, d.sysIdx)) := by
        rw [hw3]
        exact mapFind?_assign_self _ (by simp [hbr])
      have h3len : w3.systems.length = w.systems.length := by
        rw [show w3.systems.length = _ from hrlen]
        simp
      have h3bound : ∀ d' ∈ rest, d'.sysIdx < w3.systems.length := by
        intro d' hd'
        rw [h3len]
        exact hbound d' (List.mem_cons_of_mem _ hd')
      have h3sysSig : ∀ j, (sysAt w3 j).signature = (sysAt w j).signature := by
        intro j
        rw [show (sysAt w3 j).signature = (sysAt ({ w with systems := w.systems.set d.sysIdx { sys with entities := insert h sys.entities } } : World) j).signature from hrsig j]
        unfold sysAt
        by_cases hj : j = d.sysIdx
        · rw [hj]
          rw [show ((w.systems.set d.sysIdx { sys with entities := insert h sys.entities }).get? d.sysIdx) = (fun _ => ({ sys with entities := insert h sys.entities } : SystemState)) <$> w.systems.get? d.sysIdx from List.get?_set_eq _ _ _, hg]
          rfl
        · rw [List.get?_set_ne _ _ (fun he => hj he.symm)]
      have h3ent : ∀ j, (sysAt w3 j).entities =
          (if j = d.sysIdx then insert h sys.entities else (sysAt w j).entities) := by
        intro j
        rw [show (sysAt w3 j).entities = (sysAt ({ w with systems := w.systems.set d.sysIdx { sys with entities := insert h sys.entities } } : World) j).entities from hrent j]
        unfold sysAt
        by_cases hj : j = d.sysIdx
        · rw [if_pos hj, hj]
          rw [show ((w.systems.set d.sysIdx { sys with entities := insert h sys.entities }).get? d.sysIdx) = (fun _ => ({ sys with entities := insert h sys.entities } : SystemState)) <$> w.systems.get? d.sysIdx from List.get?_set_eq _ _ _, hg]
          rfl
        · rw [if_neg hj, List.get?_set_ne _ _ (fun he => hj he.symm)]
      obtain ⟨w', hrun, hc, he, hst, hsd, hes, hlen, hsg, hentx, henth, hbx, hbk, brs', hbrs', hbmem⟩ :=
        ih w3 esig (listEmplace brs₀ (b, d.sysIdx)) h3sig h3br h3bound
      refine ⟨w', hstep ▸ hrun, ?_, ?_, ?_, ?_, ?_, ?_, ?_, ?_, ?_, ?_, ?_, brs', hbrs', ?_⟩
      · rw [hc]; exact hrc
      · rw [he]; exact hre
      · rw [hst]; exact hrst
      · rw [hsd]; exact hrd
      · rw [hes]; exact hrs
      · rw [hlen]; exact h3len
      · intro j
        rw [hsg j, h3sysSig j]
      · intro j x hx
        rw [hentx j x hx, h3ent j]
        by_cases hj : j = d.sysIdx
        · subst hj
          rw [if_pos rfl, hsysw]
          simp [hx]
        · rw [if_neg hj]
      · intro j
        rw [henth j, h3ent j]
        by_cases hj : j = d.sysIdx
        · subst hj
          rw [if_pos rfl, hsysw]
          simp only [Finset.mem_insert, true_or, true_iff]
          right
          exact ⟨d, List.mem_cons_self _ _, rfl, hcmp⟩
        · rw [if_neg hj]
          constructor
          · rintro (hmem | ⟨d', hd', hdj, hcmp'⟩)
            · exact Or.inl hmem
            · exact Or.inr ⟨d', List.mem_cons_of_mem _ hd', hdj, hcmp'⟩
          · rintro (hmem | ⟨d', hd', hdj, hcmp'⟩)
            · exact Or.inl hmem
            · rcases List.mem_cons.mp hd' with hdd | hdd
              · exact absurd (hdd ▸ hdj).symm hj
              · exact Or.inr ⟨d', hdd, hdj, hcmp'⟩
      · intro x hx
        rw [hbx x hx, hw3]
        exact mapFind?_assign_ne _ _ hx
      · rw [hbk, hw3]
        exact mapAssign_keys _ _ _
      · intro p
        rw [hbmem p]
        constructor
        · rintro (hp | ⟨hpb, d', hd', hdp, hcmp'⟩)
          · rcases (listEmplace_mem brs₀ (b, d.sysIdx) p).mp hp with hp0 | hp0
            · exact Or.inl hp0
            · exact Or.inr ⟨by rw [hp0], d, List.mem_cons_self _ _, by rw [hp0], hcmp⟩
          · exact Or.inr ⟨hpb, d', List.mem_cons_of_mem _ hd', hdp, hcmp'⟩
        · rintro (hp | ⟨hpb, d', hd', hdp, hcmp'⟩)
          · exact Or.inl ((listEmplace_mem brs₀ (b, d.sysIdx) p).mpr (Or.inl hp))
          · rcases List.mem_cons.mp hd' with hdd | hdd
            · refine Or.inl ((listEmplace_mem brs₀ (b, d.sysIdx) p).mpr (Or.inr ?_))
              subst hdd
              obtain ⟨p1, p2⟩ := p
              simp only at hpb hdp
              rw [hpb, ← hdp]
            · exact Or.inr ⟨hpb, d', hdd, hdp, hcmp'⟩
    · -- the descriptor does not qualify: skip it
      have hstep : World.addLoop b h (d :: rest) w = World.addLoop b h rest w := by
        conv_lhs => rw [World.addLoop]
        rw [hsig]
        simp only [hcmp, if_false]
      obtain ⟨w', hrun, hc, he, hst, hsd, hes, hlen, hsg, hentx, henth, hbx, hbk, brs', hbrs', hbmem⟩ :=
        ih w esig brs₀ hsig hbr (fun d' hd' => hbound d' (List.mem_cons_of_mem _ hd'))
      refine ⟨w', hstep ▸ hrun, hc, he, hst, hsd, hes, hlen, hsg, hentx, ?_, hbx, hbk, brs', hbrs', ?_⟩
      · intro j
        rw [henth j]
        constructor
        · rintro (hmem | ⟨d', hd', hdj, hcmp'⟩)
          · exact Or.inl hmem
          · exact Or.inr ⟨d', List.mem_cons_of_mem _ hd', hdj, hcmp'⟩
        · rintro (hmem | ⟨d', hd', hdj, hcmp'⟩)
          · exact Or.inl hmem
          · rcases List.mem_cons.mp hd' with hdd | hdd
            · exact absurd (hdd ▸ hcmp') hcmp
            · exact Or.inr ⟨d', hdd, hdj, hcmp'⟩
      · intro p
        rw [hbmem p]
        constructor
        · rintro (hp | ⟨hpb, d', hd', hdp, hcmp'⟩)
          · exact Or.inl hp
          · exact Or.inr ⟨hpb, d', List.mem_cons_of_mem _ hd', hdp, hcmp'⟩
        · rintro (hp | ⟨hpb, d', hd', hdp, hcmp'⟩)
          · exact Or.inl hp
          · rcases List.mem_cons.mp hd' with hdd | hdd
            · exact absurd (hdd ▸ hcmp') hcmp
            · exact Or.inr ⟨hpb, d', hdd, hdp, hcmp'⟩

theorem listFilterNe_mem {α : Type} [DecidableEq α] (l : List α) (x p : α) :
    (p ∈ l.filter (· ≠ x)) ↔ (p ∈ l ∧ p ≠ x) := by
  simp [List.mem_filter]

/-- The effect of the filtered `for_each` of `World::removeComponent` over an
arbitrary descriptor list: it completes, touches only the entity sets, the
caches and the entity's back-reference set, evicts the entity from exactly
the listed descriptors' sets whose signature its (still unchanged) signature
covers, and erases exactly those descriptors' addresses from the
back-reference set. -/
theorem removeLoop_spec (b h : ℕ) (l : List SystemDescriptor) :
    ∀ (w : World) (esig : Finset ℕ) (brs₀ : List (ℕ × ℕ)),
    mapFind? w.entitySignatures h = some esig →
    mapFind? w.entitySystemDescriptors h = some brs₀ →
    (∀ d ∈ l, d.sysIdx < w.systems.length) →
    ∃ w', World.removeLoop b h l w = .ok w' ∧
      w'.componentId = w.componentId ∧
      w'.entityId = w.entityId ∧
      w'.stores = w.stores ∧
      w'.systemDescriptors = w.systemDescriptors ∧
      w'.entitySignatures = w.entitySignatures ∧
      w'.systems.length = w.systems.length ∧
      (∀ j, (sysAt w' j).signature = (sysAt w j).signature) ∧
      (∀ j x, x ≠ h → (x ∈ (sysAt w' j).entities ↔ x ∈ (sysAt w j).entities)) ∧
      (∀ j, h ∈ (sysAt w' j).entities ↔
        (h ∈ (sysAt w j).entities ∧ ¬∃ d ∈ l, d.sysIdx = j ∧ World.compareSignatures esig d.signature)) ∧
      (∀ x, x ≠ h → mapFind? w'.entitySystemDescriptors x = mapFind? w.entitySystemDescriptors x) ∧
      (w'.entitySystemDescriptors.map Prod.fst = w.entitySystemDescriptors.map Prod.fst) ∧
      (∃ brs', mapFind? w'.entitySystemDescriptors h = some brs' ∧
        ∀ p, p ∈ brs' ↔ (p ∈ brs₀ ∧ ¬(p.1 = b ∧ ∃ d ∈ l, d.sysIdx = p.2 ∧ World.compareSignatures esig d.signature))) := by
  induction l with
  | nil =>
    intro w esig brs₀ hsig hbr _
    refine ⟨w, rfl, rfl, rfl, rfl, rfl, rfl, rfl, fun j => rfl, fun j x _ => Iff.rfl,
      fun j => ?_, fun x _ => rfl, rfl, ⟨brs₀, hbr, fun p => ?_⟩⟩
    · simp
    · simp
  | cons d rest ih =>
    intro w esig brs₀ hsig hbr hbound
    have hdlt : d.sysIdx < w.systems.length := hbound d (List.mem_cons_self _ _)
    obtain ⟨sys, hg⟩ : ∃ sys, w.systems.get? d.sysIdx = some sys := by
      cases hg0 : w.systems.get? d.sysIdx with
      | none =>
        have := List.get?_eq_none.mp hg0
        omega
      | some s => exact ⟨s, rfl⟩
    have hsysw : sysAt w d.sysIdx = sys := by
      unfold sysAt
      rw [hg]
      rfl
    by_cases hcmp : World.compareSignatures esig d.signature
    · -- the descriptor matches: evict, regenerate, unlink the back-reference
      have hstep : World.removeLoop b h (d :: rest) w = World.removeLoop b h rest
          { ({ w with systems := w.systems.set d.sysIdx { sys with entities := sys.entities.erase h } } : World).regenerate d.sysIdx with entitySystemDescriptors := mapAssign w.entitySystemDescriptors h (brs₀.filter (· ≠ (b, d.sysIdx))) } := by
        conv_lhs => rw [World.removeLoop]
        rw [hsig]
        simp only [hcmp, if_true, hg]
        rw [show (({ w with systems := w.systems.set d.sysIdx { sys with entities := sys.entities.erase h } } : World).regenerate d.sysIdx).entitySystemDescriptors = w.entitySystemDescriptors from (regenerate_frame _ _).2.2.2.2.1, hbr]
      obtain ⟨hrc, hre, hrd, hrs, hrb, hrst, hrlen, hrsig, hrent⟩ :=
        regenerate_frame ({ w with systems := w.systems.set d.sysIdx { sys with entities := sys.entities.erase h } } : World) d.sysIdx
      set w3 : World := { ({ w with systems := w.systems.set d.sysIdx { sys with entities := sys.entities.erase h } } : World).regenerate d.sysIdx with entitySystemDescriptors := mapAssign w.entitySystemDescriptors h (brs₀.filter (· ≠ (b, d.sysIdx))) } with hw3
      have h3sig : mapFind? w3.entitySignatures h = some esig := by
        rw [show w3.entitySignatures = w.entitySignatures from hrs]
        exact hsig
      have h3br : mapFind? w3.entitySystemDescriptors h =
          some (brs₀.filter (· ≠ (b, d.sysIdx))) := by
        rw [hw3]
        exact mapFind?_assign_self _ (by simp [hbr])
      have h3len : w3.systems.length = w.systems.length := by
        rw [show w3.systems.length = _ from hrlen]
        simp
      have h3bound : ∀ d' ∈ rest, d'.sysIdx < w3.systems.length := by
        intro d' hd'
        rw [h3len]
        exact hbound d' (List.mem_cons_of_mem _ hd')
      have h3sysSig : ∀ j, (sysAt w3 j).signature = (sysAt w j).signature := by
        intro j
        rw [show (sysAt w3 j).signature = (sysAt ({ w with systems := w.systems.set d.sysIdx { sys with entities := sys.entities.erase h } } : World) j).signature from hrsig j]
        unfold sysAt
        by_cases hj : j = d.sysIdx
        · rw [hj]
          rw [show ((w.systems.set d.sysIdx { sys with entities := sys.entities.erase h }).get? d.sysIdx) = (fun _ => ({ sys with entities := sys.entities.erase h } : SystemState)) <$> w.systems.get? d.sysIdx from List.get?_set_eq _ _ _, hg]
          rfl
        · rw [List.get?_set_ne _ _ (fun he => hj he.symm)]
      have h3ent : ∀ j, (sysAt w3 j).entities =
          (if j = d.sysIdx then sys.entities.erase h else (sysAt w j).entities) := by
        intro j
        rw [show (sysAt w3 j).entities = (sysAt ({ w with systems := w.systems.set d.sysIdx { sys with entities := sys.entities.erase h } } : World) j).entities from hrent j]
        unfold sysAt
        by_cases hj : j = d.sysIdx
        · rw [if_pos hj, hj]
          rw [show ((w.systems.set d.sysIdx { sys with entities := sys.entities.erase h }).get? d.sysIdx) = (fun _ => ({ sys with entities := sys.entities.erase h } : SystemState)) <$> w.systems.get? d.sysIdx from List.get?_set_eq _ _ _, hg]
          rfl
        · rw [if_neg hj, List.get?_set_ne _ _ (fun he => hj he.symm)]
      obtain ⟨w', hrun, hc, he, hst, hsd, hes, hlen, hsg, hentx, henth, hbx, hbk, brs', hbrs', hbmem⟩ :=
        ih w3 esig (brs₀.filter (· ≠ (b, d.sysIdx))) h3sig h3br h3bound
      refine ⟨w', hstep ▸ hrun, ?_, ?_, ?_, ?_, ?_, ?_, ?_, ?_, ?_, ?_, ?_, brs', hbrs', ?_⟩
      · rw [hc]; exact hrc
      · rw [he]; exact hre
      · rw [hst]; exact hrst
      · rw [hsd]; exact hrd
      · rw [hes]; exact hrs
      · rw [hlen]; exact h3len
      · intro j
        rw [hsg j, h3sysSig j]
      · intro j x hx
        rw [hentx j x hx, h3ent j]
        by_cases hj : j = d.sysIdx
        · rw [if_pos hj, hj, hsysw]
          simp [hx]
        · rw [if_neg hj]
      · intro j
        rw [henth j, h3ent j]
        by_cases hj : j = d.sysIdx
        · rw [if_pos hj]
          simp only [Finset.mem_erase, ne_eq, not_true_eq_false, false_and, false_iff, not_and,
            not_not]
          intro hmem
          exact ⟨d, List.mem_cons_self _ _, hj ▸ rfl, hcmp⟩
        · rw [if_neg hj]
          constructor
          · rintro ⟨hmem, hnone⟩
            refine ⟨hmem, ?_⟩
            rintro ⟨d', hd', hdj, hcmp'⟩
            rcases List.mem_cons.mp hd' with hdd | hdd
            · exact hj ((hdd ▸ hdj : d.sysIdx = j)).symm
            · exact hnone ⟨d', hdd, hdj, hcmp'⟩
          · rintro ⟨hmem, hnone⟩
            refine ⟨hmem, ?_⟩
            rintro ⟨d', hd', hdj, hcmp'⟩
            exact hnone ⟨d', List.mem_cons_of_mem _ hd', hdj, hcmp'⟩
      · intro x hx
        rw [hbx x hx, hw3]
        exact mapFind?_assign_ne _ _ hx
      · rw [hbk, hw3]
        exact mapAssign_keys _ _ _
      · intro p
        rw [hbmem p]
        constructor
        · rintro ⟨hp, hnone⟩
          obtain ⟨hp0, hpne⟩ := (listFilterNe_mem brs₀ (b, d.sysIdx) p).mp hp
          refine ⟨hp0, ?_⟩
          rintro ⟨hpb, d', hd', hdp, hcmp'⟩
          rcases List.mem_cons.mp hd' with hdd | hdd
          · apply hpne
            obtain ⟨p1, p2⟩ := p
            simp only at hpb hdp
            rw [hpb, ← hdp, hdd]
          · exact hnone ⟨hpb, d', hdd, hdp, hcmp'⟩
        · rintro ⟨hp, hnone⟩
          refine ⟨(listFilterNe_mem brs₀ (b, d.sysIdx) p).mpr ⟨hp, ?_⟩, ?_⟩
          · intro hpe
            exact hnone ⟨by rw [hpe], d, List.mem_cons_self _ _, by rw [hpe], hcmp⟩
          · rintro ⟨hpb, d', hd', hdp, hcmp'⟩
            exact hnone ⟨hpb, d', List.mem_cons_of_mem _ hd', hdp, hcmp'⟩
    · -- the descriptor does not match: skip it
      have hstep : World.removeLoop b h (d :: rest) w = World.removeLoop b h rest w := by
        conv_lhs => rw [World.removeLoop]
        rw [hsig]
        simp only [hcmp, if_false]
      obtain ⟨w', hrun, hc, he, hst, hsd, hes, hlen, hsg, hentx, henth, hbx, hbk, brs', hbrs', hbmem⟩ :=
        ih w esig brs₀ hsig hbr (fun d' hd' => hbound d' (List.mem_cons_of_mem _ hd'))
      refine ⟨w', hstep ▸ hrun, hc, he, hst, hsd, hes, hlen, hsg, hentx, ?_, hbx, hbk, brs', hbrs', ?_⟩
      · intro j
        rw [henth j]
        constructor
        · rintro ⟨hmem, hnone⟩
          refine ⟨hmem, ?_⟩
          rintro ⟨d', hd', hdj, hcmp'⟩
          rcases List.mem_cons.mp hd' with hdd | hdd
          · exact hcmp (hdd ▸ hcmp')
          · exact hnone ⟨d', hdd, hdj, hcmp'⟩
        · rintro ⟨hmem, hnone⟩
          refine ⟨hmem, ?_⟩
          rintro ⟨d', hd', hdj, hcmp'⟩
          exact hnone ⟨d', List.mem_cons_of_mem _ hd', hdj, hcmp'⟩
      · intro p
        rw [hbmem p]
        constructor
        · rintro ⟨hp, hnone⟩
          refine ⟨hp, ?_⟩
          rintro ⟨hpb, d', hd', hdp, hcmp'⟩
          rcases List.mem_cons.mp hd' with hdd | hdd
          · exact hcmp (hdd ▸ hcmp')
          · exact hnone ⟨hpb, d', hdd, hdp, hcmp'⟩
        · rintro ⟨hp, hnone⟩
          refine ⟨hp, ?_⟩
          rintro ⟨hpb, d', hd', hdp, hcmp'⟩
          exact hnone ⟨hpb, d', List.mem_cons_of_mem _ hd', hdp, hcmp'⟩

/-- The second loop of `destroyEntity`: erases the entity from every
back-referenced descriptor's set (and rebuilds those caches), touching
nothing else. -/
theorem evictLoop_spec (h : ℕ) (l : List (ℕ × ℕ)) :
    ∀ (w : World), (∀ p ∈ l, p.2 < w.systems.length) →
    ∃ w', World.evictLoop h l w = .ok w' ∧
      w'.componentId = w.componentId ∧
      w'.entityId = w.entityId ∧
      w'.stores = w.stores ∧
      w'.systemDescriptors = w.systemDescriptors ∧
      w'.entitySignatures = w.entitySignatures ∧
      w'.entitySystemDescriptors = w.entitySystemDescriptors ∧
      w'.systems.length = w.systems.length ∧
      (∀ j, (sysAt w' j).signature = (sysAt w j).signature) ∧
      (∀ j x, x ≠ h → (x ∈ (sysAt w' j).entities ↔ x ∈ (sysAt w j).entities)) ∧
      (∀ j, h ∈ (sysAt w' j).entities ↔ (h ∈ (sysAt w j).entities ∧ ¬∃ p ∈ l, p.2 = j)) := by
  induction l with
  | nil =>
    intro w _
    refine ⟨w, rfl, rfl, rfl, rfl, rfl, rfl, rfl, rfl, fun j => rfl, fun j x _ => Iff.rfl,
      fun j => ?_⟩
    simp
  | cons d rest ih =>
    intro w hbound
    have hdlt : d.2 < w.systems.length := hbound d (List.mem_cons_self _ _)
    obtain ⟨sys, hg⟩ : ∃ sys, w.systems.get? d.2 = some sys := by
      cases hg0 : w.systems.get? d.2 with
      | none =>
        have := List.get?_eq_none.mp hg0
        omega
      | some s => exact ⟨s, rfl⟩
    have hsysw : sysAt w d.2 = sys := by
      unfold sysAt
      rw [hg]
      rfl
    have hstep : World.evictLoop h (d :: rest) w = World.evictLoop h rest
        (({ w with systems := w.systems.set d.2 { sys with entities := sys.entities.erase h } } : World).regenerate d.2) := by
      conv_lhs => rw [World.evictLoop]
      rw [hg]
    obtain ⟨hrc, hre, hrd, hrs, hrb, hrst, hrlen, hrsig, hrent⟩ :=
      regenerate_frame ({ w with systems := w.systems.set d.2 { sys with entities := sys.entities.erase h } } : World) d.2
    set w3 : World := ({ w with systems := w.systems.set d.2 { sys with entities := sys.entities.erase h } } : World).regenerate d.2 with hw3
    have h3len : w3.systems.length = w.systems.length := by
      rw [show w3.systems.length = _ from hrlen]
      simp
    have h3sysSig : ∀ j, (sysAt w3 j).signature = (sysAt w j).signature := by
      intro j
      rw [show (sysAt w3 j).signature = (sysAt ({ w with systems := w.systems.set d.2 { sys with entities := sys.entities.erase h } } : World) j).signature from hrsig j]
      unfold sysAt
      by_cases hj : j = d.2
      · rw [hj]
        rw [show ((w.systems.set d.2 { sys with entities := sys.entities.erase h }).get? d.2) = (fun _ => ({ sys with entities := sys.entities.erase h } : SystemState)) <$> w.systems.get? d.2 from List.get?_set_eq _ _ _, hg]
        rfl
      · rw [List.get?_set_ne _ _ (fun he => hj he.symm)]
    have h3ent : ∀ j, (sysAt w3 j).entities =
        (if j = d.2 then sys.entities.erase h else (sysAt w j).entities) := by
      intro j
      rw [show (sysAt w3 j).entities = (sysAt ({ w with systems := w.systems.set d.2 { sys with entities := sys.entities.erase h } } : World) j).entities from hrent j]
      unfold sysAt
      by_cases hj : j = d.2
      · rw [if_pos hj, hj]
        rw [show ((w.systems.set d.2 { sys with entities := sys.entities.erase h }).get? d.2) = (fun _ => ({ sys with entities := sys.entities.erase h } : SystemState)) <$> w.systems.get? d.2 from List.get?_set_eq _ _ _, hg]
        rfl
      · rw [if_neg hj, List.get?_set_ne _ _ (fun he => hj he.symm)]
    obtain ⟨w', hrun, hc, he, hst, hsd, hes, hbr', hlen, hsg, hentx, henth⟩ :=
      ih w3 (fun p hp => h3len ▸ hbound p (List.mem_cons_of_mem _ hp))
    refine ⟨w', hstep ▸ hrun, ?_, ?_, ?_, ?_, ?_, ?_, ?_, ?_, ?_, ?_⟩
    · rw [hc]; exact hrc
    · rw [he]; exact hre
    · rw [hst]; exact hrst
    · rw [hsd]; exact hrd
    · rw [hes]; exact hrs
    · rw [hbr']; exact hrb
    · rw [hlen]; exact h3len
    · intro j
      rw [hsg j, h3sysSig j]
    · intro j x hx
      rw [hentx j x hx, h3ent j]
      by_cases hj : j = d.2
      · rw [if_pos hj, hj, hsysw]
        simp [hx]
      · rw [if_neg hj]
    · intro j
      rw [henth j, h3ent j]
      by_cases hj : j = d.2
      · rw [if_pos hj]
        simp only [Finset.mem_erase, ne_eq, not_true_eq_false, false_and, false_iff, not_and,
          not_not]
        intro hmem
        exact ⟨d, List.mem_cons_self _ _, hj.symm⟩
      · rw [if_neg hj]
        constructor
        · rintro ⟨hmem, hnone⟩
          refine ⟨hmem, ?_⟩
          rintro ⟨p, hp, hpj⟩
          rcases List.mem_cons.mp hp with hpd | hpd
          · exact hj (by rw [← hpj, hpd])
          · exact hnone ⟨p, hpd, hpj⟩
        · rintro ⟨hmem, hnone⟩
          refine ⟨hmem, ?_⟩
          rintro ⟨p, hp, hpj⟩
          exact hnone ⟨p, List.mem_cons_of_mem _ hp, hpj⟩

/-- The first loop of `destroyEntity`: for every listed bit of the signature,
the registered detach routine removes the entity's slot from that store,
touching nothing outside `stores`. -/
theorem destroyLoop_spec (h : ℕ) (sig : Finset ℕ) (bits : List ℕ) :
    ∀ (w : World), bits.Nodup →
    (∀ bit ∈ bits, bit ∈ sig → bit < w.stores.length ∧ Registrar.Inv (storeAt w bit) ∧
      (mapFind? (storeAt w bit).handleMap h).isSome) →
    ∃ w', World.destroyLoop h sig bits w = .ok w' ∧
      w'.componentId = w.componentId ∧
      w'.entityId = w.entityId ∧
      w'.systemDescriptors = w.systemDescriptors ∧
      w'.entitySignatures = w.entitySignatures ∧
      w'.entitySystemDescriptors = w.entitySystemDescriptors ∧
      w'.systems = w.systems ∧
      w'.stores.length = w.stores.length ∧
      (∀ bit, bit ∈ bits → bit ∈ sig →
        (Registrar.Inv (storeAt w' bit) ∧ mapFind? (storeAt w' bit).handleMap h = none ∧
          (∀ x, x ≠ h → (mapFind? (storeAt w' bit).handleMap x).isSome =
            (mapFind? (storeAt w bit).handleMap x).isSome) ∧
          (storeAt w' bit).components.length + 1 = (storeAt w bit).components.length)) ∧
      (∀ bit, (bit ∉ bits ∨ bit ∉ sig) → storeAt w' bit = storeAt w bit) := by
  induction bits with
  | nil =>
    intro w _ _
    exact ⟨w, rfl, rfl, rfl, rfl, rfl, rfl, rfl, rfl, fun bit hbit => absurd hbit (by simp),
      fun bit _ => rfl⟩
  | cons bit rest ih =>
    intro w hnd hbound
    rw [List.nodup_cons] at hnd
    by_cases hbs : bit ∈ sig
    · obtain ⟨hblt, hinv, hsome⟩ := hbound bit (List.mem_cons_self _ _) hbs
      obtain ⟨st, hgst⟩ : ∃ st, w.stores.get? bit = some st := by
        cases hg0 : w.stores.get? bit with
        | none =>
          have := List.get?_eq_none.mp hg0
          omega
        | some s => exact ⟨s, rfl⟩
      have hstw : storeAt w bit = st := by
        unfold storeAt
        rw [hgst]
        rfl
      obtain ⟨index, hfind⟩ : ∃ i, mapFind? st.handleMap h = some i := by
        rw [hstw] at hsome
        cases hf : mapFind? st.handleMap h with
        | none => rw [hf] at hsome; simp at hsome
        | some i => exact ⟨i, rfl⟩
      obtain ⟨st', hrem, hinv', hlen', hnone', hframe'⟩ :=
        Registrar.remove_spec (hstw ▸ hinv) hfind
      have hstep : World.destroyLoop h sig (bit :: rest) w =
          World.destroyLoop h sig rest { w with stores := w.stores.set bit st' } := by
        conv_lhs => rw [World.destroyLoop]
        rw [if_pos hbs, hgst]
        show (match st.removeComponent h with
          | Except.ok st2 => World.destroyLoop h sig rest { w with stores := w.stores.set bit st2 }
          | Except.error e => StepResult.err e w) = _
        rw [hrem]
      have hw1at : storeAt ({ w with stores := w.stores.set bit st' } : World) bit = st' := by
        unfold storeAt
        rw [show ((w.stores.set bit st').get? bit) = (fun _ => st') <$> w.stores.get? bit from List.get?_set_eq _ _ _, hgst]
        rfl
      have hw1ne : ∀ b', b' ≠ bit → storeAt ({ w with stores := w.stores.set bit st' } : World) b' = storeAt w b' := by
        intro b' hb'
        unfold storeAt
        rw [List.get?_set_ne _ _ (fun he => hb' he.symm)]
      have h1bound : ∀ b' ∈ rest, b' ∈ sig →
          b' < ({ w with stores := w.stores.set bit st' } : World).stores.length ∧
          Registrar.Inv (storeAt ({ w with stores := w.stores.set bit st' } : World) b') ∧
          (mapFind? (storeAt ({ w with stores := w.stores.set bit st' } : World) b').handleMap h).isSome := by
        intro b' hb' hbs'
        have hne : b' ≠ bit := fun he => hnd.1 (he ▸ hb')
        obtain ⟨hlt0, hinv0, hsome0⟩ := hbound b' (List.mem_cons_of_mem _ hb') hbs'
        rw [hw1ne b' hne]
        exact ⟨by simpa using hlt0, hinv0, hsome0⟩
      obtain ⟨w', hrun, hc, he, hsd, hes, hbr', hsys, hslen, hgood, hother⟩ :=
        ih ({ w with stores := w.stores.set bit st' } : World) hnd.2 h1bound
      refine ⟨w', hstep ▸ hrun, hc, he, hsd, hes, hbr', hsys, by rw [hslen]; simp, ?_, ?_⟩
      · intro b0 hb0 hbs0
        rcases List.mem_cons.mp hb0 with hbb | hbb
        · subst hbb
          have : storeAt w' b0 = st' := by
            rw [hother b0 (Or.inl (fun he => hnd.1 he)), hw1at]
          rw [this, hstw]
          exact ⟨hinv', hnone', fun x hx => hframe' x hx, hlen'⟩
        · obtain ⟨hinv0, hnone0, hframe0, hlen0⟩ := hgood b0 hbb hbs0
          have hne : b0 ≠ bit := fun he => hnd.1 (he ▸ hbb)
          rw [hw1ne b0 hne] at hframe0 hlen0
          exact ⟨hinv0, hnone0, hframe0, hlen0⟩
      · intro b0 hb0
        have hne : b0 ∉ rest ∨ b0 ∉ sig := by
          rcases hb0 with hb0 | hb0
          · exact Or.inl (fun he => hb0 (List.mem_cons_of_mem _ he))
          · exact Or.inr hb0
        have hb0bit : b0 ≠ bit := by
          intro he
          rcases hb0 with hb0 | hb0
          · exact hb0 (he ▸ List.mem_cons_self _ _)
          · exact hb0 (he ▸ hbs)
        rw [hother b0 hne, hw1ne b0 hb0bit]
    · have hstep : World.destroyLoop h sig (bit :: rest) w =
          World.destroyLoop h sig rest w := by
        conv_lhs => rw [World.destroyLoop]
        rw [if_neg hbs]
      obtain ⟨w', hrun, hc, he, hsd, hes, hbr', hsys, hslen, hgood, hother⟩ :=
        ih w hnd.2 (fun b' hb' hbs' => hbound b' (List.mem_cons_of_mem _ hb') hbs')
      refine ⟨w', hstep ▸ hrun, hc, he, hsd, hes, hbr', hsys, hslen, ?_, ?_⟩
      · intro b0 hb0 hbs0
        rcases List.mem_cons.mp hb0 with hbb | hbb
        · exact absurd hbs0 (hbb ▸ hbs)
        · exact hgood b0 hbb hbs0
      · intro b0 hb0
        apply hother
        rcases hb0 with hb0 | hb0
        · exact Or.inl (fun he => hb0 (List.mem_cons_of_mem _ he))
        · exact Or.inr hb0

theorem get?_eq_some_of_lt {α : Type} (l : List α) (d : α) {i : ℕ} (hi : i < l.length) :
    l.get? i = some ((l.get? i).getD d) := by
  cases hg : l.get? i with
  | none => exact absurd (List.get?_eq_none.mp hg) (by omega)
  | some x => rfl

/-- A valid `World::addComponent` (live entity, registered bit, bit not yet
set) completes and preserves the world invariant; the entity's signature
gains exactly the bit, the store gains exactly the entity's slot, and
`getComponent` on it now succeeds. -/
theorem add_preserves {w : World} {b h : ℕ} {sig : Finset ℕ}
    (hinv : WInv w) (hb : b < w.componentId)
    (hsig : mapFind? w.entitySignatures h = some sig) (hbs : b ∉ sig) :
    ∃ w', w.addComponent b h = .ok w' ∧ WInv w' ∧
      mapFind? w'.entitySignatures h = some (insert b sig) ∧
      (∀ x, x ≠ h → mapFind? w'.entitySignatures x = mapFind? w.entitySignatures x) ∧
      mapFind? (storeAt w' b).handleMap h = some ((storeAt w b).components.length) ∧
      w'.getComponent b h = Except.ok () ∧
      w'.componentId = w.componentId ∧
      w'.entityId = w.entityId ∧
      w'.systems.length = w.systems.length ∧
      (∀ j, (sysAt w' j).signature = (sysAt w j).signature) := by
  have hgst : w.stores.get? b = some (storeAt w b) := by
    unfold storeAt
    exact get?_eq_some_of_lt _ _ (by rw [hinv.storesLen]; omega)
  have hgds : w.systemDescriptors.get? b = some (descsAt w b) := by
    unfold descsAt
    exact get?_eq_some_of_lt _ _ (by rw [hinv.descsLen]; omega)
  have hrun1 : w.addComponent b h = World.addLoop b h (descsAt w b) ({ w with entitySignatures := mapAssign w.entitySignatures h (insert b sig), stores := w.stores.set b ((storeAt w b).createComponent h) } : World) := by
    simp only [World.addComponent, hsig, hgst, hgds]
  set W2 : World := { w with entitySignatures := mapAssign w.entitySignatures h (insert b sig), stores := w.stores.set b ((storeAt w b).createComponent h) } with hW2
  obtain ⟨brs₀, hbrs0⟩ : ∃ brs₀, mapFind? w.entitySystemDescriptors h = some brs₀ := by
    have := (hinv.keysEq h).mp (by simp [hsig])
    cases hf : mapFind? w.entitySystemDescriptors h with
    | none => rw [hf] at this; simp at this
    | some x => exact ⟨x, rfl⟩
  have h2sig : mapFind? W2.entitySignatures h = some (insert b sig) :=
    mapFind?_assign_self _ (by simp [hsig])
  have h2br : mapFind? W2.entitySystemDescriptors h = some brs₀ := hbrs0
  have h2bound : ∀ d ∈ descsAt w b, d.sysIdx < W2.systems.length := by
    intro d hd
    exact ((hinv.descIdx b hb d).mp hd).1
  obtain ⟨w', hrun, hc, he, hst, hsd, hes, hlen, hsg, hentx, henth, hbx, hbk, brs', hbrs', hbmem⟩ :=
    addLoop_spec b h (descsAt w b) W2 (insert b sig) brs₀ h2sig h2br h2bound
  -- effect on the store at bit b
  have hstoreW2b : storeAt W2 b = (storeAt w b).createComponent h := by
    unfold storeAt
    show ((w.stores.set b ((storeAt w b).createComponent h)).get? b).getD _ = _
    rw [show ((w.stores.set b ((storeAt w b).createComponent h)).get? b) = (fun _ => ((storeAt w b).createComponent h)) <$> w.stores.get? b from List.get?_set_eq _ _ _, hgst]
    rfl
  have hstoreW2ne : ∀ b0, b0 ≠ b → storeAt W2 b0 = storeAt w b0 := by
    intro b0 hb0
    unfold storeAt
    show ((w.stores.set b ((storeAt w b).createComponent h)).get? b0).getD _ = _
    rw [List.get?_set_ne _ _ (fun he => hb0 he.symm)]
  have hstorew' : ∀ b0, storeAt w' b0 = storeAt W2 b0 := by
    intro b0
    unfold storeAt
    rw [hst]
  have habsent : mapFind? (storeAt w b).handleMap h = none := by
    cases hf : mapFind? (storeAt w b).handleMap h with
    | none => rfl
    | some i =>
      exfalso
      obtain ⟨sg, hsg', hbsg⟩ := (hinv.storeCoh b hb h).mp (by simp [hf])
      rw [hsig] at hsg'
      exact hbs ((Option.some.inj hsg') ▸ hbsg)
  obtain ⟨haddcomps, haddfind, haddfindne, -, -, haddinv⟩ :=
    Registrar.add_spec (C := Unit) default (hinv.storeInv b hb) habsent
  have hsigx : ∀ x, x ≠ h → mapFind? w'.entitySignatures x = mapFind? w.entitySignatures x := by
    intro x hx
    rw [hes]
    exact mapFind?_assign_ne _ _ hx
  have hsigh : mapFind? w'.entitySignatures h = some (insert b sig) := by
    rw [hes]
    exact h2sig
  have hsysAtW2 : ∀ j, sysAt W2 j = sysAt w j := fun j => rfl
  have hbrx : ∀ x, x ≠ h → mapFind? w'.entitySystemDescriptors x = mapFind? w.entitySystemDescriptors x := by
    intro x hx
    rw [hbx x hx]
  -- the membership characterization for h
  have hmemh : ∀ i, i < w.systems.length →
      (h ∈ (sysAt w' i).entities ↔ (sysAt w i).signature ⊆ insert b sig) := by
    intro i hi
    rw [henth i, hsysAtW2 i]
    have hold : h ∈ (sysAt w i).entities ↔ (sysAt w i).signature ⊆ sig := by
      rw [hinv.membership i hi h]
      constructor
      · rintro ⟨sg, hsg', hsub⟩
        rw [hsig] at hsg'
        exact (Option.some.inj hsg') ▸ hsub
      · intro hsub
        exact ⟨sig, hsig, hsub⟩
    rw [hold]
    have hnew : (∃ d ∈ descsAt w b, d.sysIdx = i ∧ World.compareSignatures (insert b sig) d.signature) ↔
        (b ∈ (sysAt w i).signature ∧ (sysAt w i).signature ⊆ insert b sig) := by
      constructor
      · rintro ⟨d, hd, hdi, hcmp⟩
        obtain ⟨hdlt, hdsig, hdb⟩ := (hinv.descIdx b hb d).mp hd
        rw [hdi] at hdsig hdb
        refine ⟨hdb, ?_⟩
        rw [← hdsig]
        exact (compareSignatures_iff _ _).mp hcmp
      · rintro ⟨hbmem', hsub⟩
        refine ⟨⟨(sysAt w i).signature, i⟩, ?_, rfl, ?_⟩
        · exact (hinv.descIdx b hb _).mpr ⟨hi, rfl, hbmem'⟩
        · exact (compareSignatures_iff _ _).mpr hsub
    rw [hnew]
    constructor
    · rintro (hsub | ⟨-, hsub⟩)
      · exact hsub.trans (Finset.subset_insert _ _)
      · exact hsub
    · intro hsub
      by_cases hbi : b ∈ (sysAt w i).signature
      · exact Or.inr ⟨hbi, hsub⟩
      · left
        intro x hx
        rcases Finset.mem_insert.mp (hsub hx) with hxb | hxs
        · exact absurd (hxb ▸ hx) hbi
        · exact hxs
  refine ⟨w', hrun1 ▸ hrun, ?_, hsigh, hsigx, ?_, ?_, ?_, ?_, ?_, ?_⟩
  · -- the preserved invariant
    refine ⟨?_, ?_, ?_, ?_, ?_, ?_, ?_, ?_, ?_, ?_, ?_, ?_, ?_, ?_, ?_, ?_⟩
    · rw [hes]
      exact hinv.ndSig.assign
    · unfold NodupKeys
      rw [hbk]
      exact hinv.ndBr
    · intro x
      by_cases hx : x = h
      · rw [hx, hsigh, hbrs']
        simp
      · rw [hsigx x hx, hbrx x hx]
        exact hinv.keysEq x
    · intro x hx
      rw [he]
      by_cases hxh : x = h
      · rw [hxh] at hx ⊢
        exact hinv.fresh h (by simp [hsig])
      · rw [hsigx x hxh] at hx
        exact hinv.fresh x hx
    · rw [hst]
      show (w.stores.set b _).length = _
      rw [List.length_set, hinv.storesLen, hc]
    · rw [hsd, hc]
      exact hinv.descsLen
    · rw [hc]
      exact hinv.cidLe
    · intro x sg hsg'
      rw [hc]
      by_cases hx : x = h
      · rw [hx, hsigh] at hsg'
        cases Option.some.inj hsg'
        intro b0 hb0
        rcases Finset.mem_insert.mp hb0 with hb0 | hb0
        · exact hb0 ▸ hb
        · exact hinv.sigBits h sig hsig b0 hb0
      · rw [hsigx x hx] at hsg'
        exact hinv.sigBits x sg hsg'
    · intro i hi
      rw [hsg i, hsysAtW2 i]
      exact hinv.sysSigNonempty i (by rw [← hlen]; exact hi)
    · intro i hi b0 hb0
      rw [hc]
      rw [hsg i, hsysAtW2 i] at hb0
      exact hinv.sysSigBits i (by rw [← hlen]; exact hi) b0 hb0
    · intro b0 hb0 d
      rw [hc] at hb0
      have hdescs : descsAt w' b0 = descsAt w b0 := by
        unfold descsAt
        rw [hsd]
      rw [hdescs, hsg d.sysIdx, hsysAtW2 d.sysIdx, hlen]
      show _ ↔ (d.sysIdx < w.systems.length ∧ _ ∧ _)
      exact hinv.descIdx b0 hb0 d
    · intro i hi x
      by_cases hx : x = h
      · subst hx
        rw [hmemh i (by rw [← hlen]; exact hi)]
        constructor
        · intro hsub
          exact ⟨insert b sig, hsigh, by rw [hsg i, hsysAtW2 i]; exact hsub⟩
        · rintro ⟨sg, hsg', hsub⟩
          rw [hsigh] at hsg'
          cases Option.some.inj hsg'
          rw [hsg i, hsysAtW2 i] at hsub
          exact hsub
      · rw [hentx i x hx, hsysAtW2 i]
        rw [hinv.membership i (by rw [← hlen]; exact hi) x]
        constructor
        · rintro ⟨sg, hsg', hsub⟩
          exact ⟨sg, by rw [hsigx x hx]; exact hsg', by rw [hsg i, hsysAtW2 i]; exact hsub⟩
        · rintro ⟨sg, hsg', hsub⟩
          rw [hsigx x hx] at hsg'
          rw [hsg i, hsysAtW2 i] at hsub
          exact ⟨sg, hsg', hsub⟩
    · intro x brs hbrs p hp
      rw [hc, hlen]
      by_cases hx : x = h
      · rw [hx, hbrs'] at hbrs
        cases Option.some.inj hbrs
        rcases (hbmem p).mp hp with hp0 | ⟨hpb, d, hd, hdp, -⟩
        · obtain ⟨h1, h2, h3⟩ := hinv.brValid h brs₀ hbrs0 p hp0
          exact ⟨h1, h2, by rw [hsg p.2, hsysAtW2 p.2]; exact h3⟩
        · obtain ⟨hdlt, hdsig, hdb⟩ := (hinv.descIdx b hb d).mp hd
          rw [hdp] at hdlt hdb
          exact ⟨hpb ▸ hb, hdlt, by rw [hsg p.2, hsysAtW2 p.2, hpb]; exact hdb⟩
      · rw [hbrx x hx] at hbrs
        obtain ⟨h1, h2, h3⟩ := hinv.brValid x brs hbrs p hp
        exact ⟨h1, h2, by rw [hsg p.2, hsysAtW2 p.2]; exact h3⟩
    · intro x brs hbrs i hi hx
      rw [hlen] at hi
      by_cases hxh : x = h
      · rw [hxh, hbrs'] at hbrs
        cases Option.some.inj hbrs
        rw [hxh] at hx
        rcases (henth i).mp hx with hold | ⟨d, hd, hdi, hcmp⟩
        · rw [hsysAtW2 i] at hold
          obtain ⟨b', hb'⟩ := hinv.brComplete h brs₀ hbrs0 i hi hold
          exact ⟨b', (hbmem _).mpr (Or.inl hb')⟩
        · exact ⟨b, (hbmem _).mpr (Or.inr ⟨rfl, d, hd, hdi, hcmp⟩)⟩
      · rw [hbrx x hxh] at hbrs
        rw [(hentx i x hxh), hsysAtW2 i] at hx
        exact hinv.brComplete x brs hbrs i hi hx
    · intro b0 hb0 x
      rw [hc] at hb0
      rw [hstorew' b0]
      by_cases hbb : b0 = b
      · subst hbb
        rw [hstoreW2b]
        by_cases hx : x = h
        · rw [hx]
          show (mapFind? ((storeAt w b0).addComponent default h).handleMap h).isSome ↔ _
          rw [haddfind]
          simp only [Option.isSome_some, true_iff]
          exact ⟨insert b0 sig, hsigh, Finset.mem_insert_self _ _⟩
        · show (mapFind? ((storeAt w b0).addComponent default h).handleMap x).isSome ↔ _
          rw [haddfindne x hx, hsigx x hx]
          exact hinv.storeCoh b0 hb0 x
      · rw [hstoreW2ne b0 hbb]
        by_cases hx : x = h
        · rw [hx, hsigh]
          rw [hinv.storeCoh b0 hb0 h, hsig]
          constructor
          · rintro ⟨sg, hsg', hmem⟩
            cases Option.some.inj hsg'
            exact ⟨insert b sig, rfl, Finset.mem_insert_of_mem hmem⟩
          · rintro ⟨sg, hsg', hmem⟩
            cases Option.some.inj hsg'
            rcases Finset.mem_insert.mp hmem with hm | hm
            · exact absurd hm hbb
            · exact ⟨sig, rfl, hm⟩
        · rw [hsigx x hx]
          exact hinv.storeCoh b0 hb0 x
    · intro b0 hb0
      rw [hc] at hb0
      rw [hstorew' b0]
      by_cases hbb : b0 = b
      · subst hbb
        rw [hstoreW2b]
        exact haddinv
      · rw [hstoreW2ne b0 hbb]
        exact hinv.storeInv b0 hb0
  · rw [hstorew' b, hstoreW2b]
    exact haddfind
  · unfold World.getComponent
    rw [show w'.stores.get? b = some (storeAt w' b) from ?_, hstorew' b, hstoreW2b]
    · exact Registrar.add_get default (hinv.storeInv b hb) habsent
    · unfold storeAt
      refine get?_eq_some_of_lt _ _ ?_
      rw [hst]
      show b < (w.stores.set b _).length
      rw [List.length_set, hinv.storesLen]
      omega
  · rw [hc]
  · rw [he]
  · rw [hlen]
  · intro j
    rw [hsg j, hsysAtW2 j]

/-- A valid `World::removeComponent` (live entity, registered bit, bit set)
completes and preserves the world invariant; the bit is cleared, the
entity's slot leaves the store, and `getComponent` on it now fails with
`MissingComponent`. -/
theorem remove_preserves {w : World} {b h : ℕ} {sig : Finset ℕ}
    (hinv : WInv w) (hb : b < w.componentId)
    (hsig : mapFind? w.entitySignatures h = some sig) (hbs : b ∈ sig) :
    ∃ w', w.removeComponent b h = .ok w' ∧ WInv w' ∧
      mapFind? w'.entitySignatures h = some (sig.erase b) ∧
      (∀ x, x ≠ h → mapFind? w'.entitySignatures x = mapFind? w.entitySignatures x) ∧
      mapFind? (storeAt w' b).handleMap h = none ∧
      w'.getComponent b h = Except.error QvError.missingComponent ∧
      w'.componentId = w.componentId ∧
      w'.entityId = w.entityId ∧
      w'.systems.length = w.systems.length ∧
      (∀ j, (sysAt w' j).signature = (sysAt w j).signature) := by
  have hgst : w.stores.get? b = some (storeAt w b) := by
    unfold storeAt
    exact get?_eq_some_of_lt _ _ (by rw [hinv.storesLen]; omega)
  have hgds : w.systemDescriptors.get? b = some (descsAt w b) := by
    unfold descsAt
    exact get?_eq_some_of_lt _ _ (by rw [hinv.descsLen]; omega)
  obtain ⟨brs₀, hbrs0⟩ : ∃ brs₀, mapFind? w.entitySystemDescriptors h = some brs₀ := by
    have := (hinv.keysEq h).mp (by simp [hsig])
    cases hf : mapFind? w.entitySystemDescriptors h with
    | none => rw [hf] at this; simp at this
    | some x => exact ⟨x, rfl⟩
  have hbound : ∀ d ∈ descsAt w b, d.sysIdx < w.systems.length := by
    intro d hd
    exact ((hinv.descIdx b hb d).mp hd).1
  obtain ⟨w1, hrunLoop, hc, he, hst, hsd, hes, hlen, hsg, hentx, henth, hbx, hbk, brs', hbrs', hbmem⟩ :=
    removeLoop_spec b h (descsAt w b) w sig brs₀ hsig hbrs0 hbound
  have h1sig : mapFind? w1.entitySignatures h = some sig := by
    rw [hes]
    exact hsig
  have hgst1 : w1.stores.get? b = some (storeAt w b) := by
    rw [hst]
    exact hgst
  obtain ⟨idx, hfindst⟩ : ∃ i, mapFind? (storeAt w b).handleMap h = some i := by
    have := (hinv.storeCoh b hb h).mpr ⟨sig, hsig, hbs⟩
    cases hf : mapFind? (storeAt w b).handleMap h with
    | none => rw [hf] at this; simp at this
    | some i => exact ⟨i, rfl⟩
  obtain ⟨st', hrem, hinvSt', hlenSt', hnoneSt', hframeSt'⟩ :=
    Registrar.remove_spec (hinv.storeInv b hb) hfindst
  have hrunfull : w.removeComponent b h = .ok ({ w1 with entitySignatures := mapAssign w1.entitySignatures h (sig.erase b), stores := w1.stores.set b st' } : World) := by
    simp only [World.removeComponent, hgds, hrunLoop, StepResult.andThen, h1sig, hgst1, hrem]
  set W' : World := { w1 with entitySignatures := mapAssign w1.entitySignatures h (sig.erase b), stores := w1.stores.set b st' } with hW'
  have hsigh : mapFind? W'.entitySignatures h = some (sig.erase b) :=
    mapFind?_assign_self _ (by simp [h1sig])
  have hsigx : ∀ x, x ≠ h → mapFind? W'.entitySignatures x = mapFind? w.entitySignatures x := by
    intro x hx
    rw [show mapFind? W'.entitySignatures x = mapFind? (mapAssign w1.entitySignatures h (sig.erase b)) x from rfl,
      mapFind?_assign_ne _ _ hx, hes]
  have hsysW' : ∀ j, sysAt W' j = sysAt w1 j := fun j => rfl
  have hstoreW'b : storeAt W' b = st' := by
    unfold storeAt
    show ((w1.stores.set b st').get? b).getD _ = _
    rw [show ((w1.stores.set b st').get? b) = (fun _ => st') <$> w1.stores.get? b from List.get?_set_eq _ _ _, hgst1]
    rfl
  have hstoreW'ne : ∀ b0, b0 ≠ b → storeAt W' b0 = storeAt w b0 := by
    intro b0 hb0
    unfold storeAt
    show ((w1.stores.set b st').get? b0).getD _ = _
    rw [List.get?_set_ne _ _ (fun he => hb0 he.symm), hst]
  have hbrW' : ∀ x, mapFind? W'.entitySystemDescriptors x = mapFind? w1.entitySystemDescriptors x :=
    fun x => rfl
  -- membership characterization for h after the operation
  have hmemh : ∀ i, i < w.systems.length →
      (h ∈ (sysAt W' i).entities ↔ (sysAt w i).signature ⊆ sig.erase b) := by
    intro i hi
    rw [hsysW' i, henth i]
    have hold : h ∈ (sysAt w i).entities ↔ (sysAt w i).signature ⊆ sig := by
      rw [hinv.membership i hi h]
      constructor
      · rintro ⟨sg, hsg', hsub⟩
        rw [hsig] at hsg'
        exact (Option.some.inj hsg') ▸ hsub
      · intro hsub
        exact ⟨sig, hsig, hsub⟩
    have hnew : (∃ d ∈ descsAt w b, d.sysIdx = i ∧ World.compareSignatures sig d.signature) ↔
        (b ∈ (sysAt w i).signature ∧ (sysAt w i).signature ⊆ sig) := by
      constructor
      · rintro ⟨d, hd, hdi, hcmp⟩
        obtain ⟨hdlt, hdsig, hdb⟩ := (hinv.descIdx b hb d).mp hd
        rw [hdi] at hdsig hdb
        refine ⟨hdb, ?_⟩
        rw [← hdsig]
        exact (compareSignatures_iff _ _).mp hcmp
      · rintro ⟨hbmem', hsub⟩
        refine ⟨⟨(sysAt w i).signature, i⟩, ?_, rfl, ?_⟩
        · exact (hinv.descIdx b hb _).mpr ⟨hi, rfl, hbmem'⟩
        · exact (compareSignatures_iff _ _).mpr hsub
    rw [hold, hnew, Finset.subset_erase]
    constructor
    · rintro ⟨hsub, hnot⟩
      refine ⟨hsub, fun hbmem' => hnot ⟨hbmem', hsub⟩⟩
    · rintro ⟨hsub, hnb⟩
      exact ⟨hsub, fun hcon => hnb hcon.1⟩
  refine ⟨W', hrunfull, ?_, hsigh, hsigx, ?_, ?_, ?_, ?_, ?_, ?_⟩
  · refine ⟨?_, ?_, ?_, ?_, ?_, ?_, ?_, ?_, ?_, ?_, ?_, ?_, ?_, ?_, ?_, ?_⟩
    · show NodupKeys (mapAssign w1.entitySignatures h (sig.erase b))
      refine NodupKeys.assign ?_
      unfold NodupKeys
      rw [hes]
      exact hinv.ndSig
    · show NodupKeys w1.entitySystemDescriptors
      unfold NodupKeys
      rw [hbk]
      exact hinv.ndBr
    · intro x
      by_cases hx : x = h
      · rw [hx, hsigh, hbrW' h, hbrs']
        simp
      · rw [hsigx x hx, hbrW' x, hbx x hx]
        exact hinv.keysEq x
    · intro x hx
      show x < w1.entityId
      rw [he]
      by_cases hxh : x = h
      · rw [hxh] at hx ⊢
        exact hinv.fresh h (by simp [hsig])
      · rw [hsigx x hxh] at hx
        exact hinv.fresh x hx
    · show (w1.stores.set b st').length = w1.componentId
      rw [List.length_set, hst, hc, hinv.storesLen]
    · show w1.systemDescriptors.length = w1.componentId
      rw [hsd, hc]
      exact hinv.descsLen
    · show w1.componentId ≤ componentBitsetSize
      rw [hc]
      exact hinv.cidLe
    · intro x sg hsg'
      show ∀ b0 ∈ sg, b0 < w1.componentId
      rw [hc]
      by_cases hx : x = h
      · rw [hx, hsigh] at hsg'
        cases Option.some.inj hsg'
        intro b0 hb0
        exact hinv.sigBits h sig hsig b0 (Finset.mem_of_mem_erase hb0)
      · rw [hsigx x hx] at hsg'
        exact hinv.sigBits x sg hsg'
    · intro i hi
      rw [hsysW' i, hsg i]
      refine hinv.sysSigNonempty i ?_
      have : W'.systems.length = w1.systems.length := rfl
      rw [this, hlen] at hi
      exact hi
    · intro i hi b0 hb0
      show b0 < w1.componentId
      rw [hc]
      rw [hsysW' i, hsg i] at hb0
      have : W'.systems.length = w1.systems.length := rfl
      rw [this, hlen] at hi
      exact hinv.sysSigBits i hi b0 hb0
    · intro b0 hb0 d
      have hb0' : b0 < w.componentId := by
        have : W'.componentId = w1.componentId := rfl
        rw [this, hc] at hb0
        exact hb0
      have hdescs : descsAt W' b0 = descsAt w b0 := by
        unfold descsAt
        show (w1.systemDescriptors.get? b0).getD [] = _
        rw [hsd]
      rw [hdescs, hsysW' d.sysIdx, hsg d.sysIdx]
      show _ ↔ (d.sysIdx < w1.systems.length ∧ _ ∧ _)
      rw [hlen]
      exact hinv.descIdx b0 hb0' d
    · intro i hi x
      have hi' : i < w.systems.length := by
        have : W'.systems.length = w1.systems.length := rfl
        rw [this, hlen] at hi
        exact hi
      by_cases hx : x = h
      · subst hx
        rw [hmemh i hi']
        constructor
        · intro hsub
          exact ⟨sig.erase b, hsigh, by rw [hsysW' i, hsg i]; exact hsub⟩
        · rintro ⟨sg, hsg', hsub⟩
          rw [hsigh] at hsg'
          cases Option.some.inj hsg'
          rw [hsysW' i, hsg i] at hsub
          exact hsub
      · rw [hsysW' i, hentx i x hx]
        rw [hinv.membership i hi' x]
        constructor
        · rintro ⟨sg, hsg', hsub⟩
          exact ⟨sg, by rw [hsigx x hx]; exact hsg', by rw [hsg i]; exact hsub⟩
        · rintro ⟨sg, hsg', hsub⟩
          rw [hsigx x hx] at hsg'
          rw [hsg i] at hsub
          exact ⟨sg, hsg', hsub⟩
    · intro x brs hbrs p hp
      have hcw : W'.componentId = w.componentId := by
        show w1.componentId = _
        rw [hc]
      have hlw : W'.systems.length = w.systems.length := by
        show w1.systems.length = _
        rw [hlen]
      rw [hcw, hlw, hsysW' p.2, hsg p.2]
      rw [hbrW' x] at hbrs
      by_cases hx : x = h
      · rw [hx, hbrs'] at hbrs
        cases Option.some.inj hbrs
        obtain ⟨hp0, -⟩ := (hbmem p).mp hp
        exact hinv.brValid h brs₀ hbrs0 p hp0
      · rw [hbx x hx] at hbrs
        exact hinv.brValid x brs hbrs p hp
    · intro x brs hbrs i hi hx
      have hi' : i < w.systems.length := by
        have : W'.systems.length = w1.systems.length := rfl
        rw [this, hlen] at hi
        exact hi
      rw [hbrW' x] at hbrs
      by_cases hxh : x = h
      · rw [hxh, hbrs'] at hbrs
        cases Option.some.inj hbrs
        rw [hxh] at hx
        obtain ⟨hmem0, hnot0⟩ := (by rw [hsysW' i] at hx; exact (henth i).mp hx :
          h ∈ (sysAt w i).entities ∧ ¬∃ d ∈ descsAt w b, d.sysIdx = i ∧ World.compareSignatures sig d.signature)
        obtain ⟨b', hb'⟩ := hinv.brComplete h brs₀ hbrs0 i hi' hmem0
        refine ⟨b', (hbmem _).mpr ⟨hb', ?_⟩⟩
        rintro ⟨hbb', d, hd, hdi, hcmp⟩
        exact hnot0 ⟨d, hd, hdi, hcmp⟩
      · rw [hbx x hxh] at hbrs
        rw [hsysW' i, hentx i x hxh] at hx
        exact hinv.brComplete x brs hbrs i hi' hx
    · intro b0 hb0 x
      have hb0' : b0 < w.componentId := by
        have : W'.componentId = w1.componentId := rfl
        rw [this, hc] at hb0
        exact hb0
      by_cases hbb : b0 = b
      · subst hbb
        rw [hstoreW'b]
        by_cases hx : x = h
        · rw [hx, hnoneSt', hsigh]
          simp only [Option.isSome_none, Bool.false_eq_true, false_iff]
          rintro ⟨sg, hsg', hmem⟩
          cases Option.some.inj hsg'
          exact absurd hmem (Finset.not_mem_erase _ _)
        · constructor
          · intro hsome
            rw [hframeSt' x hx] at hsome
            obtain ⟨sg, hsg', hmem⟩ := (hinv.storeCoh b0 hb0' x).mp hsome
            exact ⟨sg, by rw [hsigx x hx]; exact hsg', hmem⟩
          · rintro ⟨sg, hsg', hmem⟩
            rw [hsigx x hx] at hsg'
            rw [hframeSt' x hx]
            exact (hinv.storeCoh b0 hb0' x).mpr ⟨sg, hsg', hmem⟩
      · rw [hstoreW'ne b0 hbb]
        by_cases hx : x = h
        · rw [hx, hsigh]
          rw [hinv.storeCoh b0 hb0' h, hsig]
          constructor
          · rintro ⟨sg, hsg', hmem⟩
            cases Option.some.inj hsg'
            exact ⟨sig.erase b, rfl, Finset.mem_erase_of_ne_of_mem hbb hmem⟩
          · rintro ⟨sg, hsg', hmem⟩
            cases Option.some.inj hsg'
            exact ⟨sig, rfl, Finset.mem_of_mem_erase hmem⟩
        · rw [hsigx x hx]
          exact hinv.storeCoh b0 hb0' x
    · intro b0 hb0
      have hb0' : b0 < w.componentId := by
        have : W'.componentId = w1.componentId := rfl
        rw [this, hc] at hb0
        exact hb0
      by_cases hbb : b0 = b
      · subst hbb
        rw [hstoreW'b]
        exact hinvSt'
      · rw [hstoreW'ne b0 hbb]
        exact hinv.storeInv b0 hb0'
  · rw [hstoreW'b]
    exact hnoneSt'
  · unfold World.getComponent
    rw [show W'.stores.get? b = some st' from ?_]
    · exact Registrar.get_of_absent hnoneSt'
    · show (w1.stores.set b st').get? b = some st'
      rw [show ((w1.stores.set b st').get? b) = (fun _ => st') <$> w1.stores.get? b from List.get?_set_eq _ _ _, hgst1]
      rfl
  · show w1.componentId = _
    rw [hc]
  · show w1.entityId = _
    rw [he]
  · show w1.systems.length = _
    rw [hlen]
  · intro j
    rw [hsysW' j, hsg j]

/-- `World::createEntity` preserves the world invariant; the fresh handle is
`w.entityId`, created with a zero signature, an empty back-reference set, and
membership in no system. -/
theorem create_preserves {w : World} (hinv : WInv w) :
    WInv (w.createEntity).2 ∧
    mapFind? (w.createEntity).2.entitySignatures w.entityId = some ∅ ∧
    (∀ x, x ≠ w.entityId →
      mapFind? (w.createEntity).2.entitySignatures x = mapFind? w.entitySignatures x) ∧
    (w.createEntity).2.systems = w.systems ∧
    (w.createEntity).2.stores = w.stores ∧
    (w.createEntity).2.entityId = w.entityId + 1 := by
  have hfresh : mapFind? w.entitySignatures w.entityId = none := by
    cases hf : mapFind? w.entitySignatures w.entityId with
    | none => rfl
    | some x =>
      have := hinv.fresh w.entityId (by simp [hf])
      omega
  have hfreshBr : mapFind? w.entitySystemDescriptors w.entityId = none := by
    cases hf : mapFind? w.entitySystemDescriptors w.entityId with
    | none => rfl
    | some x =>
      have := (hinv.keysEq w.entityId).mpr (by simp [hf])
      rw [hfresh] at this
      simp at this
  have hsigE : mapFind? (w.createEntity).2.entitySignatures w.entityId = some ∅ := by
    show mapFind? (mapEmplace w.entitySignatures w.entityId ∅) w.entityId = some ∅
    exact mapFind?_emplace_self _ hfresh
  have hbrE : mapFind? (w.createEntity).2.entitySystemDescriptors w.entityId = some [] := by
    show mapFind? (mapEmplace w.entitySystemDescriptors w.entityId []) w.entityId = some []
    exact mapFind?_emplace_self _ hfreshBr
  have hsigX : ∀ x, x ≠ w.entityId →
      mapFind? (w.createEntity).2.entitySignatures x = mapFind? w.entitySignatures x := by
    intro x hx
    exact mapFind?_emplace_ne _ _ hx
  have hbrX : ∀ x, x ≠ w.entityId →
      mapFind? (w.createEntity).2.entitySystemDescriptors x = mapFind? w.entitySystemDescriptors x := by
    intro x hx
    exact mapFind?_emplace_ne _ _ hx
  have hsys : ∀ j, sysAt (w.createEntity).2 j = sysAt w j := fun j => rfl
  have hmemNot : ∀ i, i < w.systems.length → w.entityId ∉ (sysAt w i).entities := by
    intro i hi hmem
    obtain ⟨sg, hsg', -⟩ := (hinv.membership i hi w.entityId).mp hmem
    rw [hfresh] at hsg'
    exact absurd hsg' (by simp)
  refine ⟨⟨?_, ?_, ?_, ?_, ?_, ?_, ?_, ?_, ?_, ?_, ?_, ?_, ?_, ?_, ?_, ?_⟩, hsigE, hsigX, rfl, rfl, rfl⟩
  · exact hinv.ndSig.emplace
  · exact hinv.ndBr.emplace
  · intro x
    by_cases hx : x = w.entityId
    · rw [hx, hsigE, hbrE]
      simp
    · rw [hsigX x hx, hbrX x hx]
      exact hinv.keysEq x
  · intro x hx
    show x < w.entityId + 1
    by_cases hxe : x = w.entityId
    · omega
    · rw [hsigX x hxe] at hx
      have := hinv.fresh x hx
      omega
  · exact hinv.storesLen
  · exact hinv.descsLen
  · exact hinv.cidLe
  · intro x sg hsg'
    by_cases hx : x = w.entityId
    · rw [hx, hsigE] at hsg'
      cases Option.some.inj hsg'
      intro b0 hb0
      exact absurd hb0 (Finset.not_mem_empty b0)
    · rw [hsigX x hx] at hsg'
      exact hinv.sigBits x sg hsg'
  · exact hinv.sysSigNonempty
  · exact hinv.sysSigBits
  · exact hinv.descIdx
  · intro i hi x
    rw [hsys i]
    by_cases hx : x = w.entityId
    · subst hx
      constructor
      · intro hmem
        exact absurd hmem (hmemNot i hi)
      · rintro ⟨sg, hsg', hsub⟩
        rw [hsigE] at hsg'
        cases Option.some.inj hsg'
        exact absurd (Finset.subset_empty.mp hsub) (hinv.sysSigNonempty i hi)
    · rw [hinv.membership i hi x]
      constructor
      · rintro ⟨sg, hsg', hsub⟩
        exact ⟨sg, by rw [hsigX x hx]; exact hsg', hsub⟩
      · rintro ⟨sg, hsg', hsub⟩
        rw [hsigX x hx] at hsg'
        exact ⟨sg, hsg', hsub⟩
  · intro x brs hbrs p hp
    by_cases hx : x = w.entityId
    · rw [hx, hbrE] at hbrs
      cases Option.some.inj hbrs
      exact absurd hp (by simp)
    · rw [hbrX x hx] at hbrs
      exact hinv.brValid x brs hbrs p hp
  · intro x brs hbrs i hi hx
    by_cases hxe : x = w.entityId
    · rw [hxe] at hx
      rw [hsys i] at hx
      exact absurd hx (hmemNot i hi)
    · rw [hbrX x hxe] at hbrs
      rw [hsys i] at hx
      exact hinv.brComplete x brs hbrs i hi hx
  · intro b0 hb0 x
    by_cases hx : x = w.entityId
    · subst hx
      rw [hsigE]
      constructor
      · intro hsome
        obtain ⟨sg, hsg', hmem⟩ := (hinv.storeCoh b0 hb0 w.entityId).mp hsome
        rw [hfresh] at hsg'
        exact absurd hsg' (by simp)
      · rintro ⟨sg, hsg', hmem⟩
        cases Option.some.inj hsg'
        exact absurd hmem (Finset.not_mem_empty _)
    · rw [hsigX x hx]
      exact hinv.storeCoh b0 hb0 x
  · exact hinv.storeInv

/-- A valid `World::destroyEntity` (live handle) completes and preserves the
world invariant; afterwards the handle is gone from the directory, from every
system's cached set, and from every component store (each store it occupied
shrank by one slot), and `getComponent` of any registered type on it fails
with `MissingComponent`. -/
theorem destroy_preserves {w : World} {h : ℕ} {sig : Finset ℕ}
    (hinv : WInv w) (hsig : mapFind? w.entitySignatures h = some sig) :
    ∃ w', w.destroyEntity h = .ok w' ∧ WInv w' ∧
      mapFind? w'.entitySignatures h = none ∧
      mapFind? w'.entitySystemDescriptors h = none ∧
      (∀ x, x ≠ h → mapFind? w'.entitySignatures x = mapFind? w.entitySignatures x) ∧
      (∀ i, i < w.systems.length → h ∉ (sysAt w' i).entities) ∧
      (∀ b, b < w.componentId → mapFind? (storeAt w' b).handleMap h = none) ∧
      (∀ b, b < w.componentId → b ∈ sig →
        (storeAt w' b).components.length + 1 = (storeAt w b).components.length) ∧
      (∀ b, b < w.componentId → b ∉ sig → storeAt w' b = storeAt w b) ∧
      (∀ b, b < w.componentId → w'.getComponent b h = Except.error QvError.missingComponent) ∧
      w'.componentId = w.componentId ∧
      w'.entityId = w.entityId ∧
      w'.systems.length = w.systems.length ∧
      (∀ j, (sysAt w' j).signature = (sysAt w j).signature) := by
  have hboundLoop : ∀ bit ∈ List.range componentBitsetSize, bit ∈ sig →
      bit < w.stores.length ∧ Registrar.Inv (storeAt w bit) ∧
      (mapFind? (storeAt w bit).handleMap h).isSome := by
    intro bit _ hbs
    have hblt : bit < w.componentId := hinv.sigBits h sig hsig bit hbs
    refine ⟨by rw [hinv.storesLen]; omega, hinv.storeInv bit hblt, ?_⟩
    exact (hinv.storeCoh bit hblt h).mpr ⟨sig, hsig, hbs⟩
  obtain ⟨w1, hrunLoop, hc1, he1, hsd1, hes1, hbr1, hsys1, hslen1, hgood1, hother1⟩ :=
    destroyLoop_spec h sig (List.range componentBitsetSize) w (List.nodup_range _) hboundLoop
  obtain ⟨brs₀, hbrs0⟩ : ∃ brs₀, mapFind? w.entitySystemDescriptors h = some brs₀ := by
    have := (hinv.keysEq h).mp (by simp [hsig])
    cases hf : mapFind? w.entitySystemDescriptors h with
    | none => rw [hf] at this; simp at this
    | some x => exact ⟨x, rfl⟩
  have h1br : mapFind? w1.entitySystemDescriptors h = some brs₀ := by
    rw [hbr1]
    exact hbrs0
  have hsysAt1 : ∀ j, sysAt w1 j = sysAt w j := by
    intro j
    unfold sysAt
    rw [hsys1]
  have hboundEv : ∀ p ∈ brs₀, p.2 < w1.systems.length := by
    intro p hp
    rw [hsys1]
    exact (hinv.brValid h brs₀ hbrs0 p hp).2.1
  obtain ⟨w2, hrunEv, hc2, he2, hst2, hsd2, hes2, hbr2, hlen2, hsg2, hentx2, henth2⟩ :=
    evictLoop_spec h brs₀ w1 hboundEv
  have hrunfull : w.destroyEntity h = .ok ({ w2 with entitySystemDescriptors := mapErase w2.entitySystemDescriptors h, entitySignatures := mapErase w2.entitySignatures h } : World) := by
    simp only [World.destroyEntity, hsig, hrunLoop, StepResult.andThen, h1br, hrunEv]
  set W' : World := { w2 with entitySystemDescriptors := mapErase w2.entitySystemDescriptors h, entitySignatures := mapErase w2.entitySignatures h } with hW'
  have hsigNone : mapFind? W'.entitySignatures h = none := mapFind?_erase_self _ _
  have hbrNone : mapFind? W'.entitySystemDescriptors h = none := mapFind?_erase_self _ _
  have hsigX : ∀ x, x ≠ h → mapFind? W'.entitySignatures x = mapFind? w.entitySignatures x := by
    intro x hx
    show mapFind? (mapErase w2.entitySignatures h) x = _
    rw [mapFind?_erase_ne _ hx, hes2, hes1]
  have hbrX : ∀ x, x ≠ h → mapFind? W'.entitySystemDescriptors x = mapFind? w.entitySystemDescriptors x := by
    intro x hx
    show mapFind? (mapErase w2.entitySystemDescriptors h) x = _
    rw [mapFind?_erase_ne _ hx, hbr2, hbr1]
  have hsysAtW' : ∀ j, sysAt W' j = sysAt w2 j := fun j => rfl
  have hlenW' : W'.systems.length = w.systems.length := by
    show w2.systems.length = _
    rw [hlen2, hsys1]
  have hsgW' : ∀ j, (sysAt W' j).signature = (sysAt w j).signature := by
    intro j
    rw [hsysAtW' j, hsg2 j, hsysAt1 j]
  have hstoreW' : ∀ b0, storeAt W' b0 = storeAt w1 b0 := by
    intro b0
    unfold storeAt
    show (w2.stores.get? b0).getD _ = _
    rw [hst2]
  have hcW' : W'.componentId = w.componentId := by
    show w2.componentId = _
    rw [hc2, hc1]
  have hmemNone : ∀ i, i < w.systems.length → h ∉ (sysAt W' i).entities := by
    intro i hi hmem
    rw [hsysAtW' i] at hmem
    obtain ⟨hmem1, hnot⟩ := (henth2 i).mp hmem
    rw [hsysAt1 i] at hmem1
    obtain ⟨b', hb'⟩ := hinv.brComplete h brs₀ hbrs0 i hi hmem1
    exact hnot ⟨(b', i), hb', rfl⟩
  have hstoreNone : ∀ b0, b0 < w.componentId → mapFind? (storeAt W' b0).handleMap h = none := by
    intro b0 hb0
    rw [hstoreW' b0]
    by_cases hbs : b0 ∈ sig
    · exact (hgood1 b0 (List.mem_range.mpr (by have := hinv.cidLe; omega)) hbs).2.1
    · rw [hother1 b0 (Or.inr hbs)]
      cases hf : mapFind? (storeAt w b0).handleMap h with
      | none => rfl
      | some i =>
        exfalso
        obtain ⟨sg, hsg', hmem⟩ := (hinv.storeCoh b0 hb0 h).mp (by simp [hf])
        rw [hsig] at hsg'
        cases Option.some.inj hsg'
        exact hbs hmem
  refine ⟨W', hrunfull, ?_, hsigNone, hbrNone, hsigX, hmemNone, hstoreNone, ?_, ?_, ?_, hcW', ?_, hlenW', hsgW'⟩
  · -- the preserved invariant
    refine ⟨?_, ?_, ?_, ?_, ?_, ?_, ?_, ?_, ?_, ?_, ?_, ?_, ?_, ?_, ?_, ?_⟩
    · show NodupKeys (mapErase w2.entitySignatures h)
      refine NodupKeys.erase ?_
      unfold NodupKeys
      rw [hes2, hes1]
      exact hinv.ndSig
    · show NodupKeys (mapErase w2.entitySystemDescriptors h)
      refine NodupKeys.erase ?_
      unfold NodupKeys
      rw [hbr2, hbr1]
      exact hinv.ndBr
    · intro x
      by_cases hx : x = h
      · rw [hx, hsigNone, hbrNone]
        rfl
      · rw [hsigX x hx, hbrX x hx]
        exact hinv.keysEq x
    · intro x hx
      show x < w2.entityId
      rw [he2, he1]
      by_cases hxh : x = h
      · rw [hxh, hsigNone] at hx
        simp at hx
      · rw [hsigX x hxh] at hx
        exact hinv.fresh x hx
    · show w2.stores.length = w2.componentId
      rw [hst2, hslen1, hc2, hc1, hinv.storesLen]
    · show w2.systemDescriptors.length = w2.componentId
      rw [hsd2, hsd1, hc2, hc1]
      exact hinv.descsLen
    · show w2.componentId ≤ componentBitsetSize
      rw [hc2, hc1]
      exact hinv.cidLe
    · intro x sg hsg'
      show ∀ b0 ∈ sg, b0 < w2.componentId
      rw [hc2, hc1]
      by_cases hx : x = h
      · rw [hx, hsigNone] at hsg'
        exact absurd hsg' (by simp)
      · rw [hsigX x hx] at hsg'
        exact hinv.sigBits x sg hsg'
    · intro i hi
      rw [hsgW' i]
      rw [hlenW'] at hi
      exact hinv.sysSigNonempty i hi
    · intro i hi b0 hb0
      show b0 < w2.componentId
      rw [hc2, hc1]
      rw [hsgW' i] at hb0
      rw [hlenW'] at hi
      exact hinv.sysSigBits i hi b0 hb0
    · intro b0 hb0 d
      have hb0' : b0 < w.componentId := by
        rw [hcW'] at hb0
        exact hb0
      have hdescs : descsAt W' b0 = descsAt w b0 := by
        unfold descsAt
        show (w2.systemDescriptors.get? b0).getD [] = _
        rw [hsd2, hsd1]
      rw [hdescs, hsgW' d.sysIdx, hlenW']
      show _ ↔ (d.sysIdx < w.systems.length ∧ _ ∧ _)
      exact hinv.descIdx b0 hb0' d
    · intro i hi x
      rw [hlenW'] at hi
      by_cases hx : x = h
      · subst hx
        constructor
        · intro hmem
          exact absurd hmem (hmemNone i hi)
        · rintro ⟨sg, hsg', -⟩
          rw [hsigNone] at hsg'
          exact absurd hsg' (by simp)
      · rw [hsysAtW' i, hentx2 i x hx, hsysAt1 i]
        rw [hinv.membership i hi x]
        constructor
        · rintro ⟨sg, hsg', hsub⟩
          exact ⟨sg, by rw [hsigX x hx]; exact hsg', by rw [hsg2 i, hsysAt1 i]; exact hsub⟩
        · rintro ⟨sg, hsg', hsub⟩
          rw [hsigX x hx] at hsg'
          rw [hsg2 i, hsysAt1 i] at hsub
          exact ⟨sg, hsg', hsub⟩
    · intro x brs hbrs p hp
      rw [hcW', hlenW', hsgW' p.2]
      by_cases hx : x = h
      · rw [hx, hbrNone] at hbrs
        exact absurd hbrs (by simp)
      · rw [hbrX x hx] at hbrs
        exact hinv.brValid x brs hbrs p hp
    · intro x brs hbrs i hi hx
      rw [hlenW'] at hi
      by_cases hxh : x = h
      · rw [hxh, hbrNone] at hbrs
        exact absurd hbrs (by simp)
      · rw [hbrX x hxh] at hbrs
        rw [hsysAtW' i, hentx2 i x hxh, hsysAt1 i] at hx
        exact hinv.brComplete x brs hbrs i hi hx
    · intro b0 hb0 x
      have hb0' : b0 < w.componentId := by
        rw [hcW'] at hb0
        exact hb0
      by_cases hx : x = h
      · rw [hx, hsigNone, hstoreNone b0 hb0']
        simp
      · rw [hsigX x hx, hstoreW' b0]
        by_cases hbs : b0 ∈ sig
        · obtain ⟨-, -, hframe, -⟩ :=
            hgood1 b0 (List.mem_range.mpr (by have := hinv.cidLe; omega)) hbs
          rw [hframe x hx]
          exact hinv.storeCoh b0 hb0' x
        · rw [hother1 b0 (Or.inr hbs)]
          exact hinv.storeCoh b0 hb0' x
    · intro b0 hb0
      have hb0' : b0 < w.componentId := by
        rw [hcW'] at hb0
        exact hb0
      rw [hstoreW' b0]
      by_cases hbs : b0 ∈ sig
      · exact (hgood1 b0 (List.mem_range.mpr (by have := hinv.cidLe; omega)) hbs).1
      · rw [hother1 b0 (Or.inr hbs)]
        exact hinv.storeInv b0 hb0'
  · intro b0 hb0 hbs
    rw [hstoreW' b0]
    exact (hgood1 b0 (List.mem_range.mpr (by have := hinv.cidLe; omega)) hbs).2.2.2
  · intro b0 hb0 hbs
    rw [hstoreW' b0]
    exact hother1 b0 (Or.inr hbs)
  · intro b0 hb0
    unfold World.getComponent
    have hg : W'.stores.get? b0 = some (storeAt W' b0) := by
      unfold storeAt
      refine get?_eq_some_of_lt _ _ ?_
      show b0 < w2.stores.length
      rw [hst2, hslen1, hinv.storesLen]
      omega
    rw [hg]
    exact Registrar.get_of_absent (hstoreNone b0 hb0)
  · show w2.entityId = _
    rw [he2, he1]

theorem generateSignature_aux (bits : List ℕ) :
    ∀ (acc : Finset ℕ) (b : ℕ),
    (b ∈ bits.foldl (fun acc b => acc ∪ {b}) acc ↔ b ∈ acc ∨ b ∈ bits) := by
  induction bits with
  | nil =>
    intro acc b
    simp
  | cons x rest ih =>
    intro acc b
    rw [List.foldl_cons, ih (acc ∪ {x}) b]
    simp only [Finset.mem_union, Finset.mem_singleton, List.mem_cons]
    constructor
    · rintro ((hb | hb) | hb)
      · exact Or.inl hb
      · exact Or.inr (Or.inl hb)
      · exact Or.inr (Or.inr hb)
    · rintro (hb | (hb | hb))
      · exact Or.inl (Or.inl hb)
      · exact Or.inl (Or.inr hb)
      · exact Or.inr hb

theorem generateSignature_mem (bits : List ℕ) (b : ℕ) :
    b ∈ World.generateSignature bits ↔ b ∈ bits := by
  unfold World.generateSignature
  rw [generateSignature_aux bits ∅ b]
  simp

theorem registerComponents_spec (n : ℕ) :
    ∀ (w : World), w.componentId + n ≤ componentBitsetSize →
    ∃ w', World.registerComponents n w = .ok w' ∧
      w'.componentId = w.componentId + n ∧
      w'.entityId = w.entityId ∧
      w'.stores = w.stores ++ List.replicate n (Registrar.empty Unit) ∧
      w'.systemDescriptors = w.systemDescriptors ++ List.replicate n [] ∧
      w'.entitySignatures = w.entitySignatures ∧
      w'.entitySystemDescriptors = w.entitySystemDescriptors ∧
      w'.systems = w.systems := by
  induction n with
  | zero =>
    intro w _
    exact ⟨w, rfl, rfl, rfl, by simp, by simp, rfl, rfl, rfl⟩
  | succ n ih =>
    intro w hn
    have hlt : w.componentId < componentBitsetSize := by omega
    have hstep : World.registerComponents (n + 1) w = World.registerComponents n
        ({ w with stores := w.stores ++ [Registrar.empty Unit], systemDescriptors := w.systemDescriptors ++ [[]], componentId := w.componentId + 1 } : World) := by
      show (w.registerComponent).andThen _ = _
      unfold World.registerComponent
      rw [if_pos hlt]
      rfl
    obtain ⟨w', hrun, hc, he, hst, hsd, hes, hbr, hsys⟩ :=
      ih ({ w with stores := w.stores ++ [Registrar.empty Unit], systemDescriptors := w.systemDescriptors ++ [[]], componentId := w.componentId + 1 } : World) (by show w.componentId + 1 + n ≤ _; omega)
    refine ⟨w', hstep ▸ hrun, by rw [hc]; show w.componentId + 1 + n = _; omega, he, ?_, ?_, hes, hbr, hsys⟩
    · rw [hst]
      show (w.stores ++ [Registrar.empty Unit]) ++ _ = _
      rw [List.append_assoc]
      rfl
    · rw [hsd]
      show (w.systemDescriptors ++ [[]]) ++ _ = _
      rw [List.append_assoc]
      rfl

theorem regLoop_spec (sig : Finset ℕ) (sysIdx : ℕ) (bits : List ℕ) :
    ∀ (w : World), bits.Nodup →
    (∀ bit ∈ bits, bit ∈ sig → bit < w.systemDescriptors.length) →
    ∃ w', World.regLoop sig sysIdx bits w = .ok w' ∧
      w'.componentId = w.componentId ∧
      w'.entityId = w.entityId ∧
      w'.stores = w.stores ∧
      w'.entitySignatures = w.entitySignatures ∧
      w'.entitySystemDescriptors = w.entitySystemDescriptors ∧
      w'.systems = w.systems ∧
      w'.systemDescriptors.length = w.systemDescriptors.length ∧
      (∀ b, b ∈ bits → b ∈ sig → descsAt w' b = descsAt w b ++ [⟨sig, sysIdx⟩]) ∧
      (∀ b, (b ∉ bits ∨ b ∉ sig) → descsAt w' b = descsAt w b) := by
  induction bits with
  | nil =>
    intro w _ _
    exact ⟨w, rfl, rfl, rfl, rfl, rfl, rfl, rfl, rfl,
      fun b hb => absurd hb (by simp), fun b _ => rfl⟩
  | cons bit rest ih =>
    intro w hnd hbound
    rw [List.nodup_cons] at hnd
    by_cases hbs : bit ∈ sig
    · have hblt : bit < w.systemDescriptors.length :=
        hbound bit (List.mem_cons_self _ _) hbs
      have hgds : w.systemDescriptors.get? bit = some (descsAt w bit) := by
        unfold descsAt
        exact get?_eq_some_of_lt _ _ hblt
      have hstep : World.regLoop sig sysIdx (bit :: rest) w = World.regLoop sig sysIdx rest
          ({ w with systemDescriptors := w.systemDescriptors.set bit (descsAt w bit ++ [⟨sig, sysIdx⟩]) } : World) := by
        conv_lhs => rw [World.regLoop]
        rw [if_pos hbs, hgds]
      have hw1at : descsAt ({ w with systemDescriptors := w.systemDescriptors.set bit (descsAt w bit ++ [⟨sig, sysIdx⟩]) } : World) bit = descsAt w bit ++ [⟨sig, sysIdx⟩] := by
        rw [show descsAt ({ w with systemDescriptors := w.systemDescriptors.set bit (descsAt w bit ++ [⟨sig, sysIdx⟩]) } : World) bit = ((w.systemDescriptors.set bit (descsAt w bit ++ [⟨sig, sysIdx⟩])).get? bit).getD [] from rfl]
        rw [show ((w.systemDescriptors.set bit (descsAt w bit ++ [⟨sig, sysIdx⟩])).get? bit) = (fun _ => (descsAt w bit ++ [⟨sig, sysIdx⟩])) <$> w.systemDescriptors.get? bit from List.get?_set_eq _ _ _, hgds]
        rfl
      have hw1ne : ∀ b, b ≠ bit → descsAt ({ w with systemDescriptors := w.systemDescriptors.set bit (descsAt w bit ++ [⟨sig, sysIdx⟩]) } : World) b = descsAt w b := by
        intro b hb
        rw [show descsAt ({ w with systemDescriptors := w.systemDescriptors.set bit (descsAt w bit ++ [⟨sig, sysIdx⟩]) } : World) b = ((w.systemDescriptors.set bit (descsAt w bit ++ [⟨sig, sysIdx⟩])).get? b).getD [] from rfl]
        rw [List.get?_set_ne _ _ (fun he => hb he.symm)]
        rfl
      obtain ⟨w', hrun, hc, he, hst, hes, hbr, hsys, hlen, hgood, hother⟩ :=
        ih ({ w with systemDescriptors := w.systemDescriptors.set bit (descsAt w bit ++ [⟨sig, sysIdx⟩]) } : World) hnd.2
          (by
            intro b hb hbsig
            show b < (w.systemDescriptors.set bit _).length
            rw [List.length_set]
            exact hbound b (List.mem_cons_of_mem _ hb) hbsig)
      refine ⟨w', hstep ▸ hrun, hc, he, hst, hes, hbr, hsys, by rw [hlen]; simp, ?_, ?_⟩
      · intro b hb hbsig
        rcases List.mem_cons.mp hb with hbb | hbb
        · subst hbb
          rw [hother b (Or.inl hnd.1), hw1at]
        · have hne : b ≠ bit := fun he => hnd.1 (he ▸ hbb)
          rw [hgood b hbb hbsig, hw1ne b hne]
      · intro b hb
        have hne : b ≠ bit := by
          intro he
          rcases hb with hb | hb
          · exact hb (he ▸ List.mem_cons_self _ _)
          · exact hb (he ▸ hbs)
        have : b ∉ rest ∨ b ∉ sig := by
          rcases hb with hb | hb
          · exact Or.inl (fun he => hb (List.mem_cons_of_mem _ he))
          · exact Or.inr hb
        rw [hother b this, hw1ne b hne]
    · have hstep : World.regLoop sig sysIdx (bit :: rest) w = World.regLoop sig sysIdx rest w := by
        conv_lhs => rw [World.regLoop]
        rw [if_neg hbs]
      obtain ⟨w', hrun, hc, he, hst, hes, hbr, hsys, hlen, hgood, hother⟩ :=
        ih w hnd.2 (fun b hb hbsig => hbound b (List.mem_cons_of_mem _ hb) hbsig)
      refine ⟨w', hstep ▸ hrun, hc, he, hst, hes, hbr, hsys, hlen, ?_, ?_⟩
      · intro b hb hbsig
        rcases List.mem_cons.mp hb with hbb | hbb
        · exact absurd hbsig (hbb ▸ hbs)
        · exact hgood b hbb hbsig
      · intro b hb
        apply hother
        rcases hb with hb | hb
        · exact Or.inl (fun he => hb (List.mem_cons_of_mem _ he))
        · exact Or.inr hb

theorem sinv_winv {w : World} (hs : SInv w) : WInv w := by
  refine ⟨?_, ?_, ?_, ?_, hs.storesLen, hs.descsLen, hs.cidLe, ?_, hs.sysSigNonempty,
    hs.sysSigBits, hs.descIdx, ?_, ?_, ?_, ?_, ?_⟩
  · rw [hs.noSigs]
    exact NodupKeys.nil
  · rw [hs.noBrs]
    exact NodupKeys.nil
  · intro h
    rw [hs.noSigs, hs.noBrs]
    rfl
  · intro h hx
    rw [hs.noSigs] at hx
    simp [mapFind?] at hx
  · intro h sg hsg
    rw [hs.noSigs] at hsg
    simp [mapFind?] at hsg
  · intro i hi x
    rw [hs.sysEmpty i hi, hs.noSigs]
    simp [mapFind?]
  · intro x brs hbrs
    rw [hs.noBrs] at hbrs
    simp [mapFind?] at hbrs
  · intro x brs hbrs
    rw [hs.noBrs] at hbrs
    simp [mapFind?] at hbrs
  · intro b hb x
    rw [hs.storesEmpty b hb, hs.noSigs]
    show (mapFind? [] x).isSome ↔ _
    simp [mapFind?]
  · intro b hb
    rw [hs.storesEmpty b hb]
    exact Registrar.empty_inv Unit

theorem get?_replicate {α : Type} (a : α) :
    ∀ (n i : ℕ), i < n → (List.replicate n a).get? i = some a := by
  intro n
  induction n with
  | zero => intro i hi; omega
  | succ n ih =>
    intro i hi
    cases i with
    | zero => rfl
    | succ j =>
      show (List.replicate n a).get? j = some a
      exact ih j (by omega)

/-- Registering a fresh system (nonempty, registered component bits) keeps the
setup invariant. -/
theorem registerSystem_pres {w : World} {bits : List ℕ} (hs : SInv w)
    (hne : bits ≠ []) (hlt : ∀ b ∈ bits, b < w.componentId) :
    ∃ w', w.registerSystem bits = .ok w' ∧ SInv w' ∧ w'.componentId = w.componentId := by
  have hmem : ∀ b, b ∈ World.generateSignature bits ↔ b ∈ bits :=
    generateSignature_mem bits
  have hsigne : World.generateSignature bits ≠ ∅ := by
    obtain ⟨b0, hb0⟩ : ∃ b0, b0 ∈ bits := by
      cases bits with
      | nil => exact absurd rfl hne
      | cons x rest => exact ⟨x, List.mem_cons_self _ _⟩
    exact Finset.ne_empty_of_mem ((hmem b0).mpr hb0)
  have hrun1 : w.registerSystem bits = World.regLoop (World.generateSignature bits) w.systems.length (List.range componentBitsetSize) ({ w with systems := w.systems ++ [⟨World.generateSignature bits, ∅, []⟩] } : World) := rfl
  set W1 : World := { w with systems := w.systems ++ [⟨World.generateSignature bits, ∅, []⟩] } with hW1
  have hsysOld : ∀ j, j < w.systems.length → sysAt W1 j = sysAt w j := by
    intro j hj
    unfold sysAt
    show ((w.systems ++ _).get? j).getD _ = _
    rw [List.get?_append hj]
  have hsysNew : sysAt W1 w.systems.length = ⟨World.generateSignature bits, ∅, []⟩ := by
    unfold sysAt
    show ((w.systems ++ [(⟨World.generateSignature bits, ∅, []⟩ : SystemState)]).get? w.systems.length).getD _ = _
    rw [List.get?_concat_length]
    rfl
  obtain ⟨w', hrun, hc, he, hst, hes, hbr, hsys, hlen, hgood, hother⟩ :=
    regLoop_spec (World.generateSignature bits) w.systems.length (List.range componentBitsetSize)
      W1 (List.nodup_range _)
      (by
        intro bit _ hbs
        show bit < w.systemDescriptors.length
        rw [hs.descsLen]
        exact hlt bit ((hmem bit).mp hbs))
  have hsysW' : ∀ j, sysAt w' j = sysAt W1 j := by
    intro j
    unfold sysAt
    rw [hsys]
  have hlenW' : w'.systems.length = w.systems.length + 1 := by
    rw [hsys]
    show (w.systems ++ _).length = _
    simp
  refine ⟨w', hrun1 ▸ hrun, ⟨?_, ?_, ?_, ?_, ?_, ?_, ?_, ?_, ?_, ?_⟩, by rw [hc]⟩
  · rw [hes]
    exact hs.noSigs
  · rw [hbr]
    exact hs.noBrs
  · rw [hst, hc]
    exact hs.storesLen
  · rw [hlen, hc]
    exact hs.descsLen
  · rw [hc]
    exact hs.cidLe
  · intro b hb
    rw [hc] at hb
    unfold storeAt
    rw [hst]
    exact hs.storesEmpty b hb
  · intro i hi
    rw [hlenW'] at hi
    rw [hsysW' i]
    by_cases hie : i = w.systems.length
    · rw [hie, hsysNew]
    · rw [hsysOld i (by omega)]
      exact hs.sysEmpty i (by omega)
  · intro i hi
    rw [hlenW'] at hi
    rw [hsysW' i]
    by_cases hie : i = w.systems.length
    · rw [hie, hsysNew]
      exact hsigne
    · rw [hsysOld i (by omega)]
      exact hs.sysSigNonempty i (by omega)
  · intro i hi b hb
    rw [hc]
    rw [hlenW'] at hi
    rw [hsysW' i] at hb
    by_cases hie : i = w.systems.length
    · rw [hie, hsysNew] at hb
      exact hlt b ((hmem b).mp hb)
    · rw [hsysOld i (by omega)] at hb
      exact hs.sysSigBits i (by omega) b hb
  · intro b hb d
    rw [hc] at hb
    have hb2 : b < w.componentId := hb
    have hbcid : b < componentBitsetSize := by
      have := hs.cidLe
      omega
    rw [hlenW']
    by_cases hbs : b ∈ World.generateSignature bits
    · rw [hgood b (List.mem_range.mpr hbcid) hbs]
      rw [show descsAt W1 b = descsAt w b from rfl]
      constructor
      · intro hd
        rcases List.mem_append.mp hd with hd | hd
        · obtain ⟨h1, h2, h3⟩ := (hs.descIdx b hb2 d).mp hd
          rw [hsysW' d.sysIdx, hsysOld d.sysIdx h1]
          exact ⟨by omega, h2, h3⟩
        · rw [List.mem_singleton] at hd
          subst hd
          rw [hsysW' _, hsysNew]
          exact ⟨Nat.lt_succ_self _, rfl, hbs⟩
      · rintro ⟨h1, h2, h3⟩
        rw [hsysW' d.sysIdx] at h2 h3
        by_cases hde : d.sysIdx = w.systems.length
        · rw [hde, hsysNew] at h2
          refine List.mem_append.mpr (Or.inr ?_)
          rw [List.mem_singleton]
          obtain ⟨ds, di⟩ := d
          simp only at h2 hde
          rw [h2, hde]
        · rw [hsysOld d.sysIdx (by omega)] at h2 h3
          exact List.mem_append.mpr (Or.inl ((hs.descIdx b hb2 d).mpr ⟨by omega, h2, h3⟩))
    · rw [hother b (Or.inr hbs)]
      rw [show descsAt W1 b = descsAt w b from rfl]
      constructor
      · intro hd
        obtain ⟨h1, h2, h3⟩ := (hs.descIdx b hb2 d).mp hd
        rw [hsysW' d.sysIdx, hsysOld d.sysIdx h1]
        exact ⟨by omega, h2, h3⟩
      · rintro ⟨h1, h2, h3⟩
        rw [hsysW' d.sysIdx] at h2 h3
        by_cases hde : d.sysIdx = w.systems.length
        · rw [hde, hsysNew] at h3
          exact absurd h3 hbs
        · rw [hsysOld d.sysIdx (by omega)] at h2 h3
          exact (hs.descIdx b hb2 d).mpr ⟨by omega, h2, h3⟩

theorem registerSystems_pres (ls : List (List ℕ)) :
    ∀ (w : World), SInv w → (∀ bits ∈ ls, bits ≠ [] ∧ ∀ b ∈ bits, b < w.componentId) →
    ∃ w', World.registerSystems ls w = .ok w' ∧ SInv w' ∧ w'.componentId = w.componentId := by
  induction ls with
  | nil =>
    intro w hs _
    exact ⟨w, rfl, hs, rfl⟩
  | cons bits rest ih =>
    intro w hs hval
    obtain ⟨hne, hlt⟩ := hval bits (List.mem_cons_self _ _)
    obtain ⟨w1, hrun1, hs1, hc1⟩ := registerSystem_pres hs hne hlt
    obtain ⟨w', hrun, hs', hc'⟩ := ih w1 hs1 (by
      intro bs hbs
      obtain ⟨hne', hlt'⟩ := hval bs (List.mem_cons_of_mem _ hbs)
      exact ⟨hne', fun b hb => by rw [hc1]; exact hlt' b hb⟩)
    refine ⟨w', ?_, hs', by rw [hc', hc1]⟩
    show (w.registerSystem bits).andThen _ = _
    rw [hrun1]
    exact hrun

/-- A valid setup produces a world satisfying the invariant. -/
theorem setup_winv {n : ℕ} {ls : List (List ℕ)} {w : World}
    (hval : SetupValid n ls) (hrun : World.setup n ls = .ok w) : WInv w := by
  obtain ⟨hn, hls⟩ := hval
  have hinitc : World.init.componentId = 0 := rfl
  obtain ⟨w0, hrun0, hc0, he0, hst0, hsd0, hes0, hbr0, hsys0⟩ :=
    registerComponents_spec n World.init (by show 0 + n ≤ _; omega)
  have hs0 : SInv w0 := by
    refine ⟨hes0, hbr0, ?_, ?_, ?_, ?_, ?_, ?_, ?_, ?_⟩
    · rw [hst0, hc0]
      simp [World.init]
    · rw [hsd0, hc0]
      simp [World.init]
    · rw [hc0]
      simp only [World.init]
      omega
    · intro b hb
      rw [hc0] at hb
      unfold storeAt
      rw [hst0]
      show ((List.replicate n (Registrar.empty Unit)).get? b).getD _ = _
      rw [get?_replicate _ n b (by omega)]
      rfl
    · intro i hi
      rw [hsys0] at hi
      exact absurd hi (by simp [World.init])
    · intro i hi
      rw [hsys0] at hi
      exact absurd hi (by simp [World.init])
    · intro i hi
      rw [hsys0] at hi
      exact absurd hi (by simp [World.init])
    · intro b hb d
      rw [hc0] at hb
      have hdescs : descsAt w0 b = [] := by
        unfold descsAt
        rw [hsd0]
        show ((List.replicate n ([] : List SystemDescriptor)).get? b).getD [] = _
        rw [get?_replicate _ n b (by omega)]
        rfl
      rw [hdescs, hsys0]
      constructor
      · intro hd
        exact absurd hd (by simp)
      · rintro ⟨h1, -, -⟩
        exact absurd h1 (by simp [World.init])
  obtain ⟨w1, hrun1, hs1, hc1⟩ := registerSystems_pres ls w0 hs0 (by
    intro bits hbits
    obtain ⟨hne, hlt⟩ := hls bits hbits
    exact ⟨hne, fun b hb => by rw [hc0]; show b < 0 + n; have := hlt b hb; omega⟩)
  have : World.setup n ls = .ok w1 := by
    unfold World.setup
    rw [hrun0]
    exact hrun1
  rw [this] at hrun
  cases hrun
  exact sinv_winv hs1

/-- Every reachable world satisfies the consistency invariant. -/
theorem winv_of_reach {w : World} (hr : WReach w) : WInv w := by
  induction hr with
  | setup n ls w hval hrun => exact setup_winv hval hrun
  | step w w' op hr hvalid hrun ih =>
    cases op with
    | create =>
      have : w' = (w.createEntity).2 := by
        have := hrun
        unfold WOp.run at this
        cases this
        rfl
      rw [this]
      exact (create_preserves ih).1
    | addC b h =>
      obtain ⟨hb, sig, hsig, hbs⟩ := hvalid
      obtain ⟨w'', hrun'', hinv'', -⟩ := add_preserves ih hb hsig hbs
      have : w.addComponent b h = .ok w' := hrun
      rw [this] at hrun''
      cases hrun''
      exact hinv''
    | removeC b h =>
      obtain ⟨hb, sig, hsig, hbs⟩ := hvalid
      obtain ⟨w'', hrun'', hinv'', -⟩ := remove_preserves ih hb hsig hbs
      have : w.removeComponent b h = .ok w' := hrun
      rw [this] at hrun''
      cases hrun''
      exact hinv''
    | destroy h =>
      obtain ⟨sig, hsig⟩ : ∃ sig, mapFind? w.entitySignatures h = some sig := by
        cases hf : mapFind? w.entitySignatures h with
        | none =>
          exfalso
          have hv : (mapFind? w.entitySignatures h).isSome = true := hvalid
          rw [hf] at hv
          simp at hv
        | some s => exact ⟨s, rfl⟩
      obtain ⟨w'', hrun'', hinv'', -⟩ := destroy_preserves ih hsig
      have : w.destroyEntity h = .ok w' := hrun
      rw [this] at hrun''
      cases hrun''
      exact hinv''

/-! ### Reachability of the concrete scenarios -/

theorem exwA_reach : WReach exwA :=
  WReach.setup 1 [[0]] exwA ⟨by decide, by decide⟩ rfl

theorem exwB_reach : WReach exwB :=
  WReach.step exwA exwB .create exwA_reach trivial rfl

theorem exwC_reach : WReach exwC :=
  WReach.step exwB exwC (.addC 0 1) exwB_reach ⟨by decide, ∅, by decide, by decide⟩ rfl

theorem cdw0_reach : WReach cdw0 :=
  WReach.setup 2 [[0], [1], [0, 1]] cdw0 ⟨by decide, by decide⟩ rfl

theorem cdw1_reach : WReach cdw1 :=
  WReach.step cdw0 cdw1 .create cdw0_reach trivial rfl

theorem cdw2_reach : WReach cdw2 :=
  WReach.step cdw1 cdw2 (.addC 0 1) cdw1_reach ⟨by decide, ∅, by decide, by decide⟩ rfl

theorem cdw3_reach : WReach cdw3 :=
  WReach.step cdw2 cdw3 (.addC 1 1) cdw2_reach ⟨by decide, {0}, by decide, by decide⟩ rfl

/-! ### Claim theorems on the world -/

/-- C1: in every reachable world (a valid setup followed by any sequence of
completed valid mutations — `createEntity`, `addComponent`,
`removeComponent`, `destroyEntity`), an entity is in a system's cached set if
and only if its directory signature covers the system's required signature in
the sense of `World::compareSignatures` (`(entity & system) == system`). -/
theorem c1_membership_correct {w : World} (hr : WReach w) (i : ℕ)
    (hi : i < w.systems.length) (h : ℕ) :
    h ∈ (sysAt w i).entities ↔
      ∃ sig, mapFind? w.entitySignatures h = some sig ∧
        World.compareSignatures sig (sysAt w i).signature := by
  rw [(winv_of_reach hr).membership i hi h]
  exact exists_congr fun sig =>
    and_congr_right fun _ => (compareSignatures_iff sig _).symm

theorem c1_witness :
    1 ∈ (sysAt exwC 0).entities ↔
      ∃ sig, mapFind? exwC.entitySignatures 1 = some sig ∧
        World.compareSignatures sig (sysAt exwC 0).signature :=
  c1_membership_correct exwC_reach 0 (by decide) 1

/-- C5: in every reachable world, for a live entity `h` and registered bit
`b`: when the bit is absent, `addComponent` completes, the new signature has
the bit set and `getComponent` succeeds; when the bit is present,
`removeComponent` completes, the new signature has the bit clear and
`getComponent` fails with `MissingComponent`. -/
theorem c5_signature_correctness {w : World} {b h : ℕ} {sig : Finset ℕ}
    (hr : WReach w) (hb : b < w.componentId)
    (hsig : mapFind? w.entitySignatures h = some sig) :
    (b ∉ sig → ∃ w', w.addComponent b h = .ok w' ∧
      (∃ sig', mapFind? w'.entitySignatures h = some sig' ∧ b ∈ sig') ∧
      w'.getComponent b h = Except.ok ()) ∧
    (b ∈ sig → ∃ w', w.removeComponent b h = .ok w' ∧
      (∃ sig', mapFind? w'.entitySignatures h = some sig' ∧ b ∉ sig') ∧
      w'.getComponent b h = Except.error QvError.missingComponent) := by
  constructor
  · intro hbs
    obtain ⟨w', h1, -, h2, -, -, h3, -, -, -, -⟩ :=
      add_preserves (winv_of_reach hr) hb hsig hbs
    exact ⟨w', h1, ⟨insert b sig, h2, Finset.mem_insert_self b sig⟩, h3⟩
  · intro hbs
    obtain ⟨w', h1, -, h2, -, -, h3, -, -, -, -⟩ :=
      remove_preserves (winv_of_reach hr) hb hsig hbs
    exact ⟨w', h1, ⟨sig.erase b, h2, Finset.not_mem_erase b sig⟩, h3⟩

theorem c5_witness :
    (0 ∉ ({0} : Finset ℕ) → ∃ w', exwC.addComponent 0 1 = .ok w' ∧
      (∃ sig', mapFind? w'.entitySignatures 1 = some sig' ∧ 0 ∈ sig') ∧
      w'.getComponent 0 1 = Except.ok ()) ∧
    (0 ∈ ({0} : Finset ℕ) → ∃ w', exwC.removeComponent 0 1 = .ok w' ∧
      (∃ sig', mapFind? w'.entitySignatures 1 = some sig' ∧ 0 ∉ sig') ∧
      w'.getComponent 0 1 = Except.error QvError.missingComponent) :=
  @c5_signature_correctness exwC 0 1 {0} exwC_reach (by decide) (by decide)

/-- C6 counterexample: after the cascade destroy (`cdw4`), a subsequent
`getComponent` on the destroyed handle fails with `MissingComponent`, not the
claimed `UnknownEntity`: `Registrar::getComponent` hits the per-store
`handleMap` miss, and never consults the entity directory. -/
theorem c6_counterexample :
    cdw4.isOk = true ∧
    cdw4.state.getComponent 0 1 = Except.error QvError.missingComponent ∧
    cdw4.state.getComponent 0 1 ≠ Except.error QvError.unknownEntity := by
  refine ⟨by decide, rfl, ?_⟩
  intro hc
  rw [show cdw4.state.getComponent 0 1 = Except.error QvError.missingComponent from rfl] at hc
  exact absurd (Except.error.inj hc) (by decide)

/-- C6 (amended): destroying a live entity removes it from every system's
cached set and from every component store (its indirection entries are
erased), and erases both directory entries; but a subsequent `getComponent`
on the destroyed handle fails with `MissingComponent`, not `UnknownEntity`
(the per-type `handleMap` lookup misses first — the read never consults the
entity directory). -/
theorem c6_cascade_destroy {w : World} {h : ℕ} {sig : Finset ℕ}
    (hr : WReach w) (hsig : mapFind? w.entitySignatures h = some sig) :
    ∃ w', w.destroyEntity h = .ok w' ∧
      mapFind? w'.entitySignatures h = none ∧
      mapFind? w'.entitySystemDescriptors h = none ∧
      (∀ i, i < w.systems.length → h ∉ (sysAt w' i).entities) ∧
      (∀ b, b < w.componentId → mapFind? (storeAt w' b).handleMap h = none) ∧
      (∀ b, b < w.componentId →
        w'.getComponent b h = Except.error QvError.missingComponent) := by
  obtain ⟨w', h1, -, h2, h3, -, h4, h5, -, -, h6, -, -, -, -⟩ :=
    destroy_preserves (winv_of_reach hr) hsig
  exact ⟨w', h1, h2, h3, h4, h5, h6⟩

theorem c6_witness :
    ∃ w', cdw3.destroyEntity 1 = .ok w' ∧
      mapFind? w'.entitySignatures 1 = none ∧
      mapFind? w'.entitySystemDescriptors 1 = none ∧
      (∀ i, i < cdw3.systems.length → 1 ∉ (sysAt w' i).entities) ∧
      (∀ b, b < cdw3.componentId → mapFind? (storeAt w' b).handleMap 1 = none) ∧
      (∀ b, b < cdw3.componentId →
        w'.getComponent b 1 = Except.error QvError.missingComponent) :=
  @c6_cascade_destroy cdw3 1 {1, 0} cdw3_reach (by decide)

/-- C9 counterexample: a stale back-reference.  In the reachable state `sbw3`
(entity 1 holds bits 0 and 1 and belongs to the one system requiring both,
recorded through bit 1's descriptor), the completed valid
`removeComponent` of bit 0 (`sbw4`) evicts the entity from the system's set
through bit 0's descriptor, whose identity `(0, 0)` is not the recorded one,
so the erase of the back-reference misses: `(1, 0)` stays in the entity's
back-reference set although system 0's cached set no longer contains 1. -/
theorem c9_counterexample :
    mapFind? sbw3.entitySignatures 1 = some {1, 0} ∧
    sbw4.isOk = true ∧
    mapFind? sbw4.state.entitySystemDescriptors 1 = some [(1, 0)] ∧
    0 < sbw4.state.systems.length ∧
    1 ∉ (sysAt sbw4.state 0).entities := by
  decide

/-- C9 (amended): in every reachable world, the per-entity back-reference set
is sound in the weaker per-record sense (every record points at a real system
whose signature contains the recorded bit) and complete (every system whose
cached set contains the entity is listed); it is *not* exact — stale records
for systems that no longer contain the entity can remain after
`removeComponent` (see the counterexample). -/
theorem c9_backrefs_sound_complete {w : World} {h : ℕ} {brs : List (ℕ × ℕ)}
    (hr : WReach w) (hbrs : mapFind? w.entitySystemDescriptors h = some brs) :
    (∀ p ∈ brs, p.1 < w.componentId ∧ p.2 < w.systems.length ∧
      p.1 ∈ (sysAt w p.2).signature) ∧
    (∀ i, i < w.systems.length → h ∈ (sysAt w i).entities → ∃ b, (b, i) ∈ brs) :=
  ⟨(winv_of_reach hr).brValid h brs hbrs, (winv_of_reach hr).brComplete h brs hbrs⟩

theorem c9_witness :
    (∀ p ∈ [((0 : ℕ), (0 : ℕ))], p.1 < exwC.componentId ∧ p.2 < exwC.systems.length ∧
      p.1 ∈ (sysAt exwC p.2).signature) ∧
    (∀ i, i < exwC.systems.length → 1 ∈ (sysAt exwC i).entities →
      ∃ b, (b, i) ∈ [((0 : ℕ), (0 : ℕ))]) :=
  @c9_backrefs_sound_complete exwC 1 [(0, 0)] exwC_reach (by decide)

/-- C10: `Entity::operator=(Entity&&)` is the two plain handle assignments —
it never calls `World::destroyEntity`, so the world (the assignee's formerly
owned entity, its components, signature and memberships included) is exactly
unchanged; when the wrappers are distinct and the assignee's old nonzero
handle was held only by it, afterwards no wrapper holds that handle (the
entity is leaked, never destroyed); self-move-assignment zeroes the wrapper's
handle while leaving the world untouched. -/
theorem c10_move_assign_no_destroy (w : World) (cells : List ℕ) (i j : ℕ)
    (hi : i < cells.length) (hj : j < cells.length)
    (hnz : cells.getD i 0 ≠ 0)
    (huniq : ∀ k, k < cells.length → k ≠ i → cells.getD k 0 ≠ cells.getD i 0) :
    (EntityW.moveAssign (w, cells) i j).1 = w ∧
    (i ≠ j → ∀ k, k < (EntityW.moveAssign (w, cells) i j).2.length →
      (EntityW.moveAssign (w, cells) i j).2.getD k 0 ≠ cells.getD i 0) ∧
    (i = j → (EntityW.moveAssign (w, cells) i j).2.getD i 0 = 0) := by
  refine ⟨rfl, ?_, ?_⟩
  · intro hij k hk
    have hk' : k < cells.length := by
      have hlen : (EntityW.moveAssign (w, cells) i j).2.length = cells.length := by
        show ((cells.set i (cells.getD j 0)).set j 0).length = cells.length
        simp
      omega
    show (((cells.set i (cells.getD j 0)).set j 0).get? k).getD 0 ≠ cells.getD i 0
    by_cases hkj : k = j
    · subst hkj
      obtain ⟨v0, hv0⟩ : ∃ v0, (cells.set i (cells.getD k 0)).get? k = some v0 := by
        cases hg : (cells.set i (cells.getD k 0)).get? k with
        | none =>
          have := List.get?_eq_none.mp hg
          simp at this
          omega
        | some x => exact ⟨x, rfl⟩
      rw [List.get?_set_eq, hv0]
      show (0 : ℕ) ≠ cells.getD i 0
      exact Ne.symm hnz
    · rw [List.get?_set_ne _ _ (fun he => hkj he.symm)]
      by_cases hki : k = i
      · subst hki
        obtain ⟨v1, hv1⟩ : ∃ v1, cells.get? k = some v1 := by
          cases hg : cells.get? k with
          | none =>
            have := List.get?_eq_none.mp hg
            omega
          | some x => exact ⟨x, rfl⟩
        rw [List.get?_set_eq, hv1]
        show cells.getD j 0 ≠ cells.getD k 0
        exact huniq j hj (fun hji => hij hji.symm)
      · rw [List.get?_set_ne _ _ (fun he => hki he.symm)]
        show cells.getD k 0 ≠ cells.getD i 0
        exact huniq k hk' hki
  · intro hij
    subst hij
    show (((cells.set i (cells.getD i 0)).set i 0).get? i).getD 0 = 0
    obtain ⟨v0, hv0⟩ : ∃ v0, (cells.set i (cells.getD i 0)).get? i = some v0 := by
      cases hg : (cells.set i (cells.getD i 0)).get? i with
      | none =>
        have := List.get?_eq_none.mp hg
        simp at this
        omega
      | some x => exact ⟨x, rfl⟩
    rw [List.get?_set_eq, hv0]
    rfl

theorem c10_witness :
    (EntityW.moveAssign (World.init, [5, 7]) 0 1).1 = World.init ∧
    ((0 : ℕ) ≠ 1 → ∀ k, k < (EntityW.moveAssign (World.init, [5, 7]) 0 1).2.length →
      (EntityW.moveAssign (World.init, [5, 7]) 0 1).2.getD k 0 ≠ ([5, 7] : List ℕ).getD 0 0) ∧
    ((0 : ℕ) = 1 → (EntityW.moveAssign (World.init, [5, 7]) 0 1).2.getD 0 0 = 0) :=
  c10_move_assign_no_destroy World.init [5, 7] 0 1 (by decide) (by decide) (by decide)
    (by decide)

/-- When no descriptor at the bit matches the entity's signature, the
eviction loop of `World::removeComponent` is a completed no-op. -/
theorem removeLoop_skip (b h : ℕ) (l : List SystemDescriptor) :
    ∀ (w : World) (sig : Finset ℕ), mapFind? w.entitySignatures h = some sig →
    (∀ d ∈ l, ¬ World.compareSignatures sig d.signature) →
    World.removeLoop b h l w = .ok w := by
  induction l with
  | nil =>
    intro w sig _ _
    rfl
  | cons d rest ih =>
    intro w sig hsig hno
    have hstep : World.removeLoop b h (d :: rest) w = World.removeLoop b h rest w := by
      conv_lhs => rw [World.removeLoop]
      rw [hsig]
      simp only [hno d (List.mem_cons_self d rest), if_false]
    rw [hstep]
    exact ih w sig hsig fun d' hd' => hno d' (List.mem_cons_of_mem d hd')

/-- C7 counterexample: the duplicate-component precondition is never checked.
`World::addComponent` on an entity that already holds the component type
(`duprW`) completes without any error and mutates the store: the dense array
grows from one to two elements. -/
theorem c7_counterexample :
    duprW.isOk = true ∧
    (storeAt dupr1.state 0).components.length = 1 ∧
    (storeAt duprW.state 0).components.length = 2 := by
  decide

/-- C7 (amended): the unknown-entity and missing-component legs are atomic —
the operation throws with the statics exactly as at entry (`addComponent`,
`destroyEntity` and `removeComponent` on an unknown handle; `removeComponent`
of an absent component type on a live handle) — but the duplicate-component
leg is not checked at all: a duplicate `addComponent` completes and mutates
the containers (see the counterexample). -/
theorem c7_precondition_legs_atomic {w : World} (hr : WReach w) (b h : ℕ) :
    (mapFind? w.entitySignatures h = none →
      w.addComponent b h = .err .unknownEntity w ∧
      w.destroyEntity h = .err .unknownEntity w ∧
      (b < w.componentId → w.removeComponent b h = .err .unknownEntity w)) ∧
    (∀ sig, mapFind? w.entitySignatures h = some sig → b ∉ sig →
      b < w.componentId → w.removeComponent b h = .err .missingComponent w) := by
  have hinv := winv_of_reach hr
  constructor
  · intro hnone
    refine ⟨?_, ?_, ?_⟩
    · simp only [World.addComponent, hnone]
    · simp only [World.destroyEntity, hnone]
    · intro hbc
      have hgds : w.systemDescriptors.get? b = some (descsAt w b) := by
        unfold descsAt
        exact get?_eq_some_of_lt _ _ (by rw [hinv.descsLen]; omega)
      simp only [World.removeComponent, hgds]
      cases hdd : descsAt w b with
      | nil =>
        rw [show World.removeLoop b h [] w = StepResult.ok w from rfl]
        simp only [StepResult.andThen, hnone]
      | cons d rest =>
        have hloop : World.removeLoop b h (d :: rest) w = .err .unknownEntity w := by
          conv_lhs => rw [World.removeLoop]
          rw [hnone]
        rw [hloop]
        simp only [StepResult.andThen]
  · intro sig hsig hbs hbc
    have hgds : w.systemDescriptors.get? b = some (descsAt w b) := by
      unfold descsAt
      exact get?_eq_some_of_lt _ _ (by rw [hinv.descsLen]; omega)
    have hgst : w.stores.get? b = some (storeAt w b) := by
      unfold storeAt
      exact get?_eq_some_of_lt _ _ (by rw [hinv.storesLen]; omega)
    have hno : ∀ d ∈ descsAt w b, ¬ World.compareSignatures sig d.signature := by
      intro d hd hcmp
      obtain ⟨-, hdsig, hdb⟩ := (hinv.descIdx b hbc d).mp hd
      have hbd : b ∈ d.signature := hdsig ▸ hdb
      exact hbs ((compareSignatures_iff sig d.signature).mp hcmp hbd)
    have hskip : World.removeLoop b h (descsAt w b) w = .ok w :=
      removeLoop_skip b h (descsAt w b) w sig hsig hno
    have habsent : mapFind? (storeAt w b).handleMap h = none := by
      cases hf : mapFind? (storeAt w b).handleMap h with
      | none => rfl
      | some i =>
        exfalso
        obtain ⟨sg, hsg, hbsg⟩ := (hinv.storeCoh b hbc h).mp (by simp [hf])
        rw [hsig] at hsg
        cases hsg
        exact hbs hbsg
    have hremErr : (storeAt w b).removeComponent h =
        Except.error QvError.missingComponent := Registrar.remove_of_absent habsent
    have hassign : mapAssign w.entitySignatures h (sig.erase b) = w.entitySignatures := by
      rw [Finset.erase_eq_self.mpr hbs]
      exact mapAssign_self hinv.ndSig hsig
    simp only [World.removeComponent, hgds, hskip, StepResult.andThen, hsig, hgst, hremErr]
    rw [hassign]

theorem c7_witness :
    (mapFind? exwB.entitySignatures 1 = none →
      exwB.addComponent 0 1 = .err .unknownEntity exwB ∧
      exwB.destroyEntity 1 = .err .unknownEntity exwB ∧
      (0 < exwB.componentId → exwB.removeComponent 0 1 = .err .unknownEntity exwB)) ∧
    (∀ sig, mapFind? exwB.entitySignatures 1 = some sig → 0 ∉ sig →
      0 < exwB.componentId → exwB.removeComponent 0 1 = .err .missingComponent exwB) :=
  c7_precondition_legs_atomic exwB_reach 0 1
